import Mathlib

/-!
Verification of the `di` package of the garlic repository (a Go
dependency-injection container) against its specification.

The development shallowly embeds the Go source:

* Go's `reflect.Type` values become the inductive `GoType` (struct field
  lists are the mutually inductive `Fields`, mirroring `reflect.StructField`
  sequences); `reflect.Kind` becomes `GoKind`.
* Go runtime values handled by the container (stored in `any`) become the
  inductive `Val`; a Go `any` that may be `nil` becomes `Option (GoType × Val)`
  (`none` is the nil interface, `some (t, v)` a value `v` with dynamic type `t`).
* Errors become the inductive `Err`, one constructor per error type of the
  package.
* Go maps keyed by `reflect.Type` become association lists with
  first-match lookup; assignment prepends (shadowing), which has the same
  lookup semantics as Go's in-place overwrite.
* The sequential fragment of the concurrent code is modelled: the
  `sync.RWMutex` double-checked locking in `instanceMap.resolve` collapses
  to a single cache check, which is its behaviour for sequential calls
  (the claims under study only concern sequential call sequences).
* Factories and resolvers are Lean functions.  In the resolution machine
  the Go heap is modelled by an allocation counter threaded through the
  factories, so that instance identity (`a == b` on Go pointers) is
  expressible.
-/

namespace Garlic

/-- Go's `reflect.Kind` classification, as consumed by the package. -/
inductive GoKind where
  | boolK | intK | int8K | int16K | int32K | int64K
  | uintK | uint8K | uint16K | uint32K | uint64K | uintptrK
  | float32K | float64K | complex64K | complex128K
  | arrayK | chanK | funcK | interfaceK | mapK | pointerK
  | sliceK | stringK | structK | unsafePointerK
  deriving DecidableEq, Repr

mutual

/-- A Go type as seen through `reflect.Type`: identity plus structural
classification.  Struct and interface types carry their method names so that
`AssignableTo` can decide interface satisfaction. -/
inductive GoType where
  | boolT
  | intT | int8T | int16T | int32T | int64T
  | uintT | uint8T | uint16T | uint32T | uint64T
  | uintptrT
  | float32T | float64T | complex64T | complex128T
  | stringT
  | arrayT (len : Nat) (elem : GoType)
  | sliceT (elem : GoType)
  | mapT (key : GoType) (value : GoType)
  | chanT (elem : GoType)
  | funcT (name : String)
  | ifaceT (name : String) (methods : List String)
  | structT (name : String) (fields : Fields) (methods : List String)
  | ptrT (elem : GoType)
  | unsafePointerT
  deriving DecidableEq, Repr

/-- The field list of a Go struct type, in declaration order.  Each field has
a name (whose first rune decides exportedness, as in Go) and a declared type. -/
inductive Fields where
  | nil
  | cons (name : String) (typ : GoType) (rest : Fields)
  deriving DecidableEq, Repr

end

/-- `reflect.Type.Kind()`. -/
def GoType.kind : GoType → GoKind
  | .boolT => .boolK
  | .intT => .intK
  | .int8T => .int8K
  | .int16T => .int16K
  | .int32T => .int32K
  | .int64T => .int64K
  | .uintT => .uintK
  | .uint8T => .uint8K
  | .uint16T => .uint16K
  | .uint32T => .uint32K
  | .uint64T => .uint64K
  | .uintptrT => .uintptrK
  | .float32T => .float32K
  | .float64T => .float64K
  | .complex64T => .complex64K
  | .complex128T => .complex128K
  | .stringT => .stringK
  | .arrayT _ _ => .arrayK
  | .sliceT _ => .sliceK
  | .mapT _ _ => .mapK
  | .chanT _ => .chanK
  | .funcT _ => .funcK
  | .ifaceT _ _ => .interfaceK
  | .structT _ _ _ => .structK
  | .ptrT _ => .pointerK
  | .unsafePointerT => .unsafePointerK

/-- The method set of a type, used to decide interface satisfaction.
Only struct types (and pointers to them) declare methods in this model. -/
def GoType.methodSet : GoType → List String
  | .structT _ _ ms => ms
  | .ptrT e => e.methodSet
  | _ => []

/-- `reflect.Type.AssignableTo`, restricted to the two cases the package
exercises: identical types, and a type implementing an interface (every
method of the interface is in the method set).  Go type assertion `x.(T)`
succeeds under the same condition for the values this model handles, so the
same function also models the assertion in the typed `Resolve` facade. -/
def GoType.assignableTo (src dst : GoType) : Bool :=
  src = dst ||
    match dst with
    | .ifaceT _ ms => ms.all (fun m => src.methodSet.contains m)
    | _ => false

/-- `isConcrete` from resolve.go: every kind except interface is concrete. -/
def isConcrete (typ : GoType) : Bool :=
  typ.kind != .interfaceK

/-- `isSharable` from resolve.go: pointer and channel kinds only. -/
def isSharable (typ : GoType) : Bool :=
  if typ.kind = .pointerK then true
  else if typ.kind = .chanK then true
  else false

/-- Go's `Lifetime` is an `int`. -/
abbrev Lifetime := Int

/-- `Transient Lifetime = iota + 1`. -/
def Transient : Lifetime := 1

/-- `Scoped`. -/
def Scoped : Lifetime := 2

/-- `Singleton`. -/
def Singleton : Lifetime := 3

/-- Membership in the `knownLifetimes` map, whose keys are exactly
`Transient`, `Scoped` and `Singleton`. -/
def knownLifetime (l : Lifetime) : Bool :=
  l = Transient || l = Scoped || l = Singleton

mutual

/-- A Go runtime value as handled by the container (the payload of an
`any`).  `addrV` is a heap reference carrying its allocation index, used
where Go pointer identity (`a == b`) matters; `ptrV`/`ptrNilV` are
structural pointers, used where the code compares pointed-to contents. -/
inductive Val where
  | boolV (b : Bool)
  | intV (n : Int)
  | floatV (n : Int)
  | complexV (re : Int) (im : Int)
  | strV (s : String)
  | arrV (elems : Vals)
  | sliceNilV
  | sliceV (elems : Vals)
  | mapNilV
  | mapV (entries : Vals)
  | chanNilV
  | chanV (cap : Nat)
  | funcNilV
  | nilIfaceV
  | structV (fields : Vals)
  | ptrNilV
  | ptrV (pointee : Val)
  | addrV (a : Nat)
  | pairV (fst : Val) (snd : Val)
  deriving DecidableEq, Repr

/-- A sequence of values (struct field values, array elements, map entries). -/
inductive Vals where
  | nil
  | cons (v : Val) (rest : Vals)
  deriving DecidableEq, Repr

end

/-- `n` copies of a value: the contents of `reflect.Zero` of an array type. -/
def valsReplicate : Nat → Val → Vals
  | 0, _ => .nil
  | n + 1, v => .cons v (valsReplicate n v)

mutual

/-- `reflect.Zero(typ).Interface()`: the zero value of a type. -/
def zeroValue : GoType → Val
  | .boolT => .boolV false
  | .intT => .intV 0
  | .int8T => .intV 0
  | .int16T => .intV 0
  | .int32T => .intV 0
  | .int64T => .intV 0
  | .uintT => .intV 0
  | .uint8T => .intV 0
  | .uint16T => .intV 0
  | .uint32T => .intV 0
  | .uint64T => .intV 0
  | .uintptrT => .intV 0
  | .float32T => .floatV 0
  | .float64T => .floatV 0
  | .complex64T => .complexV 0 0
  | .complex128T => .complexV 0 0
  | .stringT => .strV ""
  | .arrayT n e => .arrV (valsReplicate n (zeroValue e))
  | .sliceT _ => .sliceNilV
  | .mapT _ _ => .mapNilV
  | .chanT _ => .chanNilV
  | .funcT _ => .funcNilV
  | .ifaceT _ _ => .nilIfaceV
  | .structT _ fs _ => .structV (zeroFields fs)
  | .ptrT _ => .ptrNilV
  | .unsafePointerT => .ptrNilV

/-- Zero values of a struct's fields, in declaration order. -/
def zeroFields : Fields → Vals
  | .nil => .nil
  | .cons _ t rest => .cons (zeroValue t) (zeroFields rest)

end

/-- The errors of the `di` package, one constructor per error type, each
carrying the structured context the Go type carries.  `goError` stands for
an arbitrary error produced by user code (a custom factory or resolver);
`panicUnreachable` stands for the `panic` on the undefined-lifetime branch
of `RootProvider.Resolve`, which validated registrations never reach. -/
inductive Err where
  | unknownType (typ : GoType)
  | scopedValueRequestedFromRootProvider (typ : GoType)
  | noDefaultFactory (typ : GoType)
  | nonConcreteImplementation (typ : GoType)
  | invalidImplementation (typ : GoType) (target : GoType)
  | undefinedLifetime (value : Lifetime)
  | unsharableType (typ : GoType) (lifetime : Lifetime)
  | nilFactory
  | nilResolver
  | resolverError (wrapped : Err)
  | invalidResolution (requested : GoType) (returned : Option GoType)
  | goError (msg : String)
  | panicUnreachable (lifetime : Lifetime)
  deriving DecidableEq, Repr

/-- A Go `any` as returned by `Resolver.Resolve`: `none` is the nil
interface (for which `reflect.TypeOf` returns nil), `some (t, v)` holds a
value `v` of dynamic type `t`. -/
abbrev AnyV := Option (GoType × Val)

/-- The `Resolver` interface: `Resolve(reflect.Type) (any, error)`. -/
abbrev Resolver := GoType → Except Err AnyV

/-- A `factoryFunc`: `func(Resolver) (any, error)`.  The factories the
package builds never return a nil `any` on success, so the success payload
is a plain `Val`. -/
abbrev Factory := Resolver → Except Err Val

/-- `reflect.StructField.IsExported`: the first rune of the name is upper
case. -/
def isExported (name : String) : Bool :=
  name.front.isUpper

/-- The field-initialisation loop in the factory returned by
`getDefaultStructFactory`: walk the fields in declaration order; skip
unexported fields (leaving their zero value); for an exported field call
`r.Resolve(field.Type)`, fail with a wrapped resolver error if it errors,
fail with `InvalidResolution{field.Type, reflect.TypeOf(resolved)}` if the
result is nil or not assignable to the field type, otherwise set the
field. -/
def initFields (r : Resolver) : Fields → Except Err Vals
  | .nil => .ok .nil
  | .cons name ftyp rest =>
    if isExported name then
      match r ftyp with
      | .error e => .error (.resolverError e)
      | .ok none => .error (.invalidResolution ftyp none)
      | .ok (some (rt, v)) =>
        if rt.assignableTo ftyp then
          match initFields r rest with
          | .error e => .error e
          | .ok vs => .ok (.cons v vs)
        else .error (.invalidResolution ftyp (some rt))
    else
      match initFields r rest with
      | .error e => .error e
      | .ok vs => .ok (.cons (zeroValue ftyp) vs)

/-- The sequence of types the struct factory requests from the resolver,
in order (it mirrors the `r.Resolve(field.Type)` call sites of the loop in
`getDefaultStructFactory`, stopping where the loop aborts). -/
def structCalls (r : Resolver) : Fields → List GoType
  | .nil => []
  | .cons name ftyp rest =>
    if isExported name then
      match r ftyp with
      | .error _ => [ftyp]
      | .ok none => [ftyp]
      | .ok (some (rt, _)) =>
        if rt.assignableTo ftyp then ftyp :: structCalls r rest
        else [ftyp]
    else structCalls r rest

/-- `getDefaultStructFactory`: always succeeds, returning a factory that
starts from the zero value (`reflect.New(typ)`) and runs the field loop.
The non-struct branch is unreachable (the function is only called on
struct kinds). -/
def getDefaultStructFactory (typ : GoType) : Except Err Factory :=
  match typ with
  | .structT _ fs _ =>
    .ok (fun r =>
      match initFields r fs with
      | .error e => .error e
      | .ok vs => .ok (.structV vs))
  | _ => .error (.noDefaultFactory typ)

/-- `getDefaultFactory` from default_factory.go.  The kind switch: bool,
numeric, string, array and slice kinds get the zero value; maps get a
fresh empty writable map (`reflect.MakeMap`); channels a fresh unbuffered
channel (`reflect.MakeChan(typ, 0)`); structs `getDefaultStructFactory`;
pointers the body of `getDefaultPointerFactory` (inlined here so the
recursion on the element type is structural): derive the element factory,
translate its `ErrNoDefaultFactory` into `NoDefaultFactory{Type: typ}`
naming the pointer type itself, and on success return a factory producing
a non-nil pointer to the element factory's value.  Everything else
(uintptr, func, interface, unsafe.Pointer) has no default factory. -/
def getDefaultFactory : GoType → Except Err Factory
  | .boolT => .ok (fun _ => .ok (zeroValue .boolT))
  | .intT => .ok (fun _ => .ok (zeroValue .intT))
  | .int8T => .ok (fun _ => .ok (zeroValue .int8T))
  | .int16T => .ok (fun _ => .ok (zeroValue .int16T))
  | .int32T => .ok (fun _ => .ok (zeroValue .int32T))
  | .int64T => .ok (fun _ => .ok (zeroValue .int64T))
  | .uintT => .ok (fun _ => .ok (zeroValue .uintT))
  | .uint8T => .ok (fun _ => .ok (zeroValue .uint8T))
  | .uint16T => .ok (fun _ => .ok (zeroValue .uint16T))
  | .uint32T => .ok (fun _ => .ok (zeroValue .uint32T))
  | .uint64T => .ok (fun _ => .ok (zeroValue .uint64T))
  | .float32T => .ok (fun _ => .ok (zeroValue .float32T))
  | .float64T => .ok (fun _ => .ok (zeroValue .float64T))
  | .complex64T => .ok (fun _ => .ok (zeroValue .complex64T))
  | .complex128T => .ok (fun _ => .ok (zeroValue .complex128T))
  | .stringT => .ok (fun _ => .ok (zeroValue .stringT))
  | .arrayT n e => .ok (fun _ => .ok (zeroValue (.arrayT n e)))
  | .sliceT e => .ok (fun _ => .ok (zeroValue (.sliceT e)))
  | .mapT _ _ => .ok (fun _ => .ok (.mapV .nil))
  | .chanT _ => .ok (fun _ => .ok (.chanV 0))
  | .structT n fs ms => getDefaultStructFactory (.structT n fs ms)
  | .ptrT e =>
    match getDefaultFactory e with
    | .error (.noDefaultFactory _) => .error (.noDefaultFactory (.ptrT e))
    | .error err => .error err
    | .ok ef =>
      .ok (fun r =>
        match ef r with
        | .error err => .error err
        | .ok v => .ok (.ptrV v))
  | .uintptrT => .error (.noDefaultFactory .uintptrT)
  | .funcT n => .error (.noDefaultFactory (.funcT n))
  | .ifaceT n ms => .error (.noDefaultFactory (.ifaceT n ms))
  | .unsafePointerT => .error (.noDefaultFactory .unsafePointerT)

/-- First-match lookup in an association list keyed by `GoType`: the
lookup semantics of a Go map whose assignments prepend entries. -/
def alookup {β : Type} : List (GoType × β) → GoType → Option β
  | [], _ => none
  | (k, v) :: rest, t => if k = t then some v else alookup rest t

/-- In-place update at an index, leaving the list unchanged when the index
is out of range. -/
def listSet {α : Type} : List α → Nat → α → List α
  | [], _, _ => []
  | _ :: rest, 0, a => a :: rest
  | x :: rest, n + 1, a => x :: listSet rest n a

/-- A `registration`: lifetime plus type-erased factory. -/
structure Registration where
  lifetime : Lifetime
  factory : Factory

/-- One Go map value `map[reflect.Type]registration`. -/
abbrev RegMap := List (GoType × Registration)

/-- The heap of registration maps.  Go maps are reference values: distinct
`Registry` values can share one map, and writing through one is visible
through the other, so the maps live in this explicit heap. -/
structure RegHeap where
  maps : List RegMap

/-- A `Registry` value: `registrations` is nil (`none`) or a reference to
a map in the heap. -/
structure Registry where
  registrations : Option Nat

/-- What a registry maps a target type to, reading through its map
reference. -/
def registryFind (h : RegHeap) (r : Registry) (t : GoType) : Option Registration :=
  match r.registrations with
  | none => none
  | some i => alookup (h.maps.getD i []) t

/-- `addRegistration`: allocate a map if the registry's is nil, then assign
`registrations[target] = registration` in place and return the registry. -/
def addRegistration (h : RegHeap) (registry : Registry) (target : GoType)
    (reg : Registration) : Registry × RegHeap :=
  match registry.registrations with
  | none => (⟨some h.maps.length⟩, ⟨h.maps ++ [[(target, reg)]]⟩)
  | some i => (⟨some i⟩, ⟨listSet h.maps i ((target, reg) :: h.maps.getD i [])⟩)

/-- `validateRegistrationTypes` from resolve.go. -/
def validateRegistrationTypes (target impl : GoType) : Option Err :=
  if !isConcrete impl then some (.nonConcreteImplementation impl)
  else if !(impl.assignableTo target) then some (.invalidImplementation impl target)
  else none

/-- `validateLifetime` from resolve.go. -/
def validateLifetime (impl : GoType) (lifetime : Lifetime) : Option Err :=
  if !(knownLifetime lifetime) then some (.undefinedLifetime lifetime)
  else if lifetime ≠ Transient && !(isSharable impl) then
    some (.unsharableType impl lifetime)
  else none

/-- `RegisterFactory`: validate types, validate lifetime, reject a nil
factory, then add the registration.  Returns the pair `(Registry, error)`
the Go function returns, together with the updated map heap.  (Go wraps
the typed factory into an `any`-returning closure; `Factory` is already
the erased form, so the wrapping is the identity here.) -/
def RegisterFactory (h : RegHeap) (registry : Registry) (target impl : GoType)
    (lifetime : Lifetime) (factory : Option Factory) :
    (Registry × Option Err) × RegHeap :=
  match validateRegistrationTypes target impl with
  | some e => ((registry, some e), h)
  | none =>
    match validateLifetime impl lifetime with
    | some e => ((registry, some e), h)
    | none =>
      match factory with
      | none => ((registry, some .nilFactory), h)
      | some f =>
        match addRegistration h registry target ⟨lifetime, f⟩ with
        | (r', h') => ((r', none), h')

/-- `RegisterType`: obtain the default factory for the implementation type
first, then delegate to `RegisterFactory`. -/
def RegisterType (h : RegHeap) (registry : Registry) (target impl : GoType)
    (lifetime : Lifetime) : (Registry × Option Err) × RegHeap :=
  match getDefaultFactory impl with
  | .error e => ((registry, some e), h)
  | .ok f => RegisterFactory h registry target impl lifetime (some f)

/-- `Registry.BuildRootProvider`: the defensive copy (`maps.Clone`) of the
registration map that the built `RootProvider` holds.  The result is a
plain value, detached from the heap. -/
def BuildRootProvider (h : RegHeap) (registry : Registry) : RegMap :=
  match registry.registrations with
  | none => []
  | some i => h.maps.getD i []

/-- The generic facade `Resolve[T](resolver)`: reject a nil resolver, call
the resolver with T's descriptor, wrap a resolver error, and type-assert
the result to T (a nil `any` fails the assertion for every T, interface
types included). -/
def Resolve (typ : GoType) (resolver : Option Resolver) : Except Err Val :=
  match resolver with
  | none => .error .nilResolver
  | some r =>
    match r typ with
    | .error e => .error (.resolverError e)
    | .ok none => .error (.invalidResolution typ none)
    | .ok (some (rt, v)) =>
      if rt.assignableTo typ then .ok v
      else .error (.invalidResolution typ (some rt))

/-!
The resolution machine.

`RootProvider.Resolve`, `Scope.Resolve`, `RootProvider.NewScope`,
`Scope.NewScope` and `instanceMap.resolve` are modelled as a sequential
state machine.  The machine's state (`World`) holds the root's singleton
instance map, one scoped instance map per created scope (`Scope` values
are indices into that list, `RootProvider.NewScope` appends a fresh empty
map), the allocation counter that stands for the Go heap, and a ghost log
recording, at each call site where the code invokes a registration's
factory, the registered type and whether the invocation succeeded.

Factories here are functions of the resolver they are handed (the provider
or the scope, as data) and of the allocation counter: a Go factory can
observe and extend the heap but cannot reach into the provider's instance
maps, which only `instanceMap.resolve` writes.
-/

/-- The resolver value the code passes to a factory: the `RootProvider`
itself, or a `Scope` (identified by its index). -/
inductive RsvId where
  | root
  | scope (sid : Nat)
  deriving DecidableEq, Repr

/-- A registration as the resolution machine sees it: a lifetime and a
factory acting on the allocation counter. -/
structure RegS where
  lifetime : Lifetime
  factory : RsvId → Nat → Except Err Val × Nat

/-- A `RootProvider`: the cloned registration map (`BuildRootProvider`). -/
structure RootProviderM where
  registrations : List (GoType × RegS)

/-- An `instanceMap`'s contents. -/
abbrev IMap := List (GoType × Val)

/-- The mutable state shared by a root provider and all its scopes. -/
structure World where
  singletons : IMap
  scopes : List IMap
  alloc : Nat
  invocations : List (GoType × Bool)

/-- Whether a factory result is a success. -/
def isOkB : Except Err Val → Bool
  | .ok _ => true
  | .error _ => false

/-- `instanceMap.resolve(typ, factory, resolver)` from instance_map.go,
for sequential callers (the double-checked locking re-check collapses into
the single cache check): return the cached instance if present; otherwise
invoke the factory, returning its error without caching, or caching and
returning its value.  The last component reports whether the factory was
invoked. -/
def instanceMapResolve (m : IMap) (t : GoType)
    (fac : RsvId → Nat → Except Err Val × Nat) (rsv : RsvId) (alloc : Nat) :
    Except Err Val × IMap × Nat × Bool :=
  match alookup m t with
  | some v => (.ok v, m, alloc, false)
  | none =>
    match fac rsv alloc with
    | (.error e, a') => (.error e, m, a', true)
    | (.ok v, a') => (.ok v, (t, v) :: m, a', true)

/-- The scoped instance map of scope `sid` (scopes are created in order,
so the index is a scope's identity). -/
def getScope : List IMap → Nat → IMap
  | [], _ => []
  | s :: _, 0 => s
  | _ :: rest, n + 1 => getScope rest n

/-- Extend the ghost invocation log when the factory was invoked. -/
def logIf (inv : Bool) (log : List (GoType × Bool)) (t : GoType)
    (res : Except Err Val) : List (GoType × Bool) :=
  if inv then log ++ [(t, isOkB res)] else log

/-- `RootProvider.Resolve(typ)` from root_provider.go: unknown type,
transient (invoke the factory with the provider as resolver), scoped
(always `ScopedValueRequestedFromRootProvider`), singleton (delegate to
the singleton instance map), or the unreachable-lifetime panic. -/
def rootResolve (p : RootProviderM) (w : World) (t : GoType) :
    Except Err Val × World :=
  match alookup p.registrations t with
  | none => (.error (.unknownType t), w)
  | some reg =>
    if reg.lifetime = Transient then
      match reg.factory .root w.alloc with
      | (res, a') =>
        (res, { w with alloc := a', invocations := logIf true w.invocations t res })
    else if reg.lifetime = Scoped then
      (.error (.scopedValueRequestedFromRootProvider t), w)
    else if reg.lifetime = Singleton then
      match instanceMapResolve w.singletons t reg.factory .root w.alloc with
      | (res, m', a', inv) =>
        (res, { w with singletons := m', alloc := a', invocations := logIf inv w.invocations t res })
    else
      (.error (.panicUnreachable reg.lifetime), w)

/-- `Scope.Resolve(typ)` from default_factory.go: if the type is
registered with Scoped lifetime, delegate to this scope's own instance map
with the scope itself as resolver; otherwise delegate to the root
provider. -/
def scopeResolve (p : RootProviderM) (w : World) (sid : Nat) (t : GoType) :
    Except Err Val × World :=
  match alookup p.registrations t with
  | some reg =>
    if reg.lifetime = Scoped then
      match instanceMapResolve (getScope w.scopes sid) t reg.factory
          (.scope sid) w.alloc with
      | (res, m', a', inv) =>
        (res, { w with scopes := listSet w.scopes sid m', alloc := a', invocations := logIf inv w.invocations t res })
    else rootResolve p w t
  | none => rootResolve p w t

/-- An operation on a built root provider.  `newScope` covers both
`RootProvider.NewScope` and `Scope.NewScope` (the latter delegates to the
former, so a child scope is a fresh scope of the same root): it appends a
fresh empty scoped instance map and the new scope's identity is the old
scope count. -/
inductive Op where
  | newScope
  | resolveRoot (t : GoType)
  | resolveScope (sid : Nat) (t : GoType)
  deriving DecidableEq, Repr

/-- One machine step; resolve operations report their result. -/
def step (p : RootProviderM) (w : World) : Op → World × Option (Except Err Val)
  | .newScope => ({ w with scopes := w.scopes ++ [[]] }, none)
  | .resolveRoot t =>
    match rootResolve p w t with
    | (res, w') => (w', some res)
  | .resolveScope sid t =>
    match scopeResolve p w sid t with
    | (res, w') => (w', some res)

/-- Run a sequence of operations. -/
def run (p : RootProviderM) (w : World) : List Op → World
  | [] => w
  | op :: ops => run p (step p w op).1 ops

/-- The per-operation results of a sequence of operations. -/
def results (p : RootProviderM) (w : World) : List Op → List (Option (Except Err Val))
  | [] => []
  | op :: ops => (step p w op).2 :: results p (step p w op).1 ops

/-- Building a root provider: clone the registrations (here taken as the
finished association list) and pair them with a fresh empty singleton
instance map, no scopes, and an arbitrary initial allocation counter. -/
def buildRootProviderM (regs : List (GoType × RegS)) (a0 : Nat) :
    RootProviderM × World :=
  (⟨regs⟩, ⟨[], [], a0, []⟩)

/-- Scope indices used by resolve operations refer to scopes already
created (every Go `Scope` value comes from a `NewScope` call). -/
def opsValid (n : Nat) : List Op → Bool
  | [] => true
  | .newScope :: rest => opsValid (n + 1) rest
  | .resolveRoot _ :: rest => opsValid n rest
  | .resolveScope sid _ :: rest => sid < n && opsValid n rest

/-- How many times the run invoked the factory registered for `t`. -/
def countInvocations (w : World) (t : GoType) : Nat :=
  (w.invocations.filter (fun x => if x.1 = t then true else false)).length

/-- Successful invocations of `t`'s factory recorded in a log. -/
def countSuccessL (log : List (GoType × Bool)) (t : GoType) : Nat :=
  (log.filter (fun x => if x.1 = t then x.2 else false)).length

/-- How many of those invocations returned successfully. -/
def countSuccess (w : World) (t : GoType) : Nat :=
  countSuccessL w.invocations t

/-! Basic lemmas about the association-list and scope-list primitives. -/

theorem alookup_cons_self {β : Type} (m : List (GoType × β)) (t : GoType) (v : β) :
    alookup ((t, v) :: m) t = some v := by
  simp [alookup]

theorem alookup_cons_ne {β : Type} (m : List (GoType × β)) (t t' : GoType) (v : β)
    (h : t' ≠ t) : alookup ((t', v) :: m) t = alookup m t := by
  simp [alookup, h]

/-! Claim theorems, in order of the supporting machinery. -/

/-- C10: when the underlying `Resolver.Resolve` returns a nil value with a
nil error, the typed facade `Resolve` fails with
`InvalidResolution{Requested: T, Returned: nil}` for every requested type
`T` (interface types included — a nil `any` fails Go's type assertion for
every assertion type), and never returns the nil value as a success. -/
theorem c10_nil_resolution (typ : GoType) (r : Resolver) (h : r typ = .ok none) :
    Resolve typ (some r) = .error (.invalidResolution typ none) := by
  simp [Resolve, h]

/-- Witness for C10 at an interface type and the constant-nil resolver. -/
theorem c10_witness :
    Resolve (.ifaceT "io.Reader" ["Read"]) (some (fun _ => .ok none)) =
      .error (.invalidResolution (.ifaceT "io.Reader" ["Read"]) none) :=
  c10_nil_resolution (.ifaceT "io.Reader" ["Read"]) (fun _ => .ok none) rfl

/-- C8: for an implementation type whose kind is neither pointer nor
channel, `validateLifetime` accepts the Transient lifetime and rejects
Scoped and Singleton with `UnsharableType` carrying the type and the
attempted lifetime. -/
theorem c8_unsharable_lifetime (impl : GoType) (lifetime : Lifetime)
    (hp : impl.kind ≠ .pointerK) (hc : impl.kind ≠ .chanK)
    (hl : lifetime = Scoped ∨ lifetime = Singleton) :
    validateLifetime impl Transient = none ∧
    validateLifetime impl lifetime = some (.unsharableType impl lifetime) := by
  have hs : isSharable impl = false := by simp [isSharable, hp, hc]
  refine ⟨by simp [validateLifetime, knownLifetime], ?_⟩
  rcases hl with h | h <;> subst h <;>
    simp [validateLifetime, knownLifetime, hs, Transient, Scoped, Singleton]

/-- Witness for C8 at a bare struct type. -/
theorem c8_witness :
    validateLifetime (.structT "S" (.cons "X" .intT .nil) []) Transient = none ∧
    validateLifetime (.structT "S" (.cons "X" .intT .nil) []) Scoped =
      some (.unsharableType (.structT "S" (.cons "X" .intT .nil) []) Scoped) :=
  c8_unsharable_lifetime (.structT "S" (.cons "X" .intT .nil) []) Scoped
    (by decide) (by decide) (Or.inl rfl)

/-- C4: resolving a type registered with Scoped lifetime directly on the
root provider fails with `ScopedValueRequestedFromRootProvider` carrying
the requested type and leaves the state — in particular the ghost
invocation log — unchanged, so the registration's factory is never
invoked. -/
theorem c4_scoped_from_root (p : RootProviderM) (w : World) (t : GoType)
    (reg : RegS) (hreg : alookup p.registrations t = some reg)
    (hl : reg.lifetime = Scoped) :
    rootResolve p w t = (.error (.scopedValueRequestedFromRootProvider t), w) := by
  simp [rootResolve, hreg, hl, Scoped, Transient]

/-- Witness for C4 on a one-registration provider. -/
theorem c4_witness :
    rootResolve ⟨[(.intT, ⟨Scoped, fun _ n => (.ok (.addrV n), n + 1)⟩)]⟩
      ⟨[], [], 0, []⟩ .intT =
      (.error (.scopedValueRequestedFromRootProvider .intT), ⟨[], [], 0, []⟩) :=
  c4_scoped_from_root ⟨[(.intT, ⟨Scoped, fun _ n => (.ok (.addrV n), n + 1)⟩)]⟩
    ⟨[], [], 0, []⟩ .intT ⟨Scoped, fun _ n => (.ok (.addrV n), n + 1)⟩ rfl rfl

/-- C3: the instance cache's memoized resolve.  When the type is uncached
and the factory errors, the error is returned, the cache is unchanged
(nothing is stored), and — the cache being unchanged — a resolve of the
same type invokes the factory again.  When the type is uncached and the
factory succeeds, the instance is stored under the type, and every
subsequent resolve of the type on the resulting cache returns the stored
instance without invoking any factory.  When the type is cached, the
stored instance is returned and the factory is not invoked. -/
theorem c3_instance_cache_memoization (m : IMap) (t : GoType)
    (fac : RsvId → Nat → Except Err Val × Nat) (rsv : RsvId) (alloc : Nat) :
    (∀ e a', alookup m t = none → fac rsv alloc = (.error e, a') →
      instanceMapResolve m t fac rsv alloc = (.error e, m, a', true)) ∧
    (∀ v a', alookup m t = none → fac rsv alloc = (.ok v, a') →
      instanceMapResolve m t fac rsv alloc = (.ok v, (t, v) :: m, a', true) ∧
      ∀ fac' rsv' alloc', instanceMapResolve ((t, v) :: m) t fac' rsv' alloc' =
        (.ok v, (t, v) :: m, alloc', false)) ∧
    (∀ v, alookup m t = some v →
      instanceMapResolve m t fac rsv alloc = (.ok v, m, alloc, false)) := by
  refine ⟨?_, ?_, ?_⟩
  · intro e a' hnone hfac
    simp [instanceMapResolve, hnone, hfac]
  · intro v a' hnone hfac
    refine ⟨by simp [instanceMapResolve, hnone, hfac], ?_⟩
    intro fac' rsv' alloc'
    simp [instanceMapResolve, alookup_cons_self]
  · intro v hsome
    simp [instanceMapResolve, hsome]

/-- Witness for C3: a failing factory is retried and a successful one is
memoized, on concrete inputs. -/
theorem c3_witness :
    instanceMapResolve [] .intT (fun _ _ => (.error (.goError "boom"), 5)) .root 0 =
      (.error (.goError "boom"), [], 5, true) ∧
    instanceMapResolve [] .intT (fun _ n => (.ok (.addrV n), n + 1)) .root 0 =
      (.ok (.addrV 0), [(.intT, .addrV 0)], 1, true) ∧
    instanceMapResolve [(.intT, .addrV 0)] .intT
        (fun _ n => (.ok (.addrV n), n + 1)) .root 7 =
      (.ok (.addrV 0), [(.intT, .addrV 0)], 7, false) := by
  refine ⟨?_, ?_, ?_⟩
  · exact (c3_instance_cache_memoization [] .intT
      (fun _ _ => (.error (.goError "boom"), 5)) .root 0).1 _ 5 rfl rfl
  · exact ((c3_instance_cache_memoization [] .intT
      (fun _ n => (.ok (.addrV n), n + 1)) .root 0).2.1 (.addrV 0) 1 rfl rfl).1
  · exact (c3_instance_cache_memoization [(.intT, .addrV 0)] .intT
      (fun _ n => (.ok (.addrV n), n + 1)) .root 7).2.2 (.addrV 0) rfl

/-- Every failure of `getDefaultFactory` is a `NoDefaultFactory` error
(the pointer branch relies on this: it turns its element's
`ErrNoDefaultFactory` into one naming the pointer type, and no other
error shape can propagate). -/
theorem getDefaultFactory_error_shape (t : GoType) (e : Err)
    (h : getDefaultFactory t = .error e) : ∃ t', e = .noDefaultFactory t' := by
  match t with
  | .boolT | .intT | .int8T | .int16T | .int32T | .int64T
  | .uintT | .uint8T | .uint16T | .uint32T | .uint64T
  | .float32T | .float64T | .complex64T | .complex128T
  | .stringT | .arrayT _ _ | .sliceT _ | .mapT _ _ | .chanT _ =>
    simp [getDefaultFactory] at h
  | .structT nm fs ms =>
    simp [getDefaultFactory, getDefaultStructFactory] at h
  | .uintptrT | .funcT _ | .ifaceT _ _ | .unsafePointerT =>
    simp [getDefaultFactory] at h
    exact ⟨_, h.symm⟩
  | .ptrT el =>
    cases hel : getDefaultFactory el with
    | ok f => simp [getDefaultFactory, hel] at h
    | error err =>
      obtain ⟨t', ht'⟩ := getDefaultFactory_error_shape el err hel
      subst ht'
      simp [getDefaultFactory, hel] at h
      exact ⟨.ptrT el, h.symm⟩

/-- C6: a default factory for `*T` exists iff one exists for `T`; when it
does not, the failure is `NoDefaultFactory` naming the pointer type `*T`
itself; when it does, the `*T` factory turns every success `v` of `T`'s
factory into the non-nil pointer `ptrV v` whose pointed-to value is
exactly `v`.  Since the statement holds for every `t` it applies to
`t = *T`, `**T`, … as well, giving the recursive composition through any
number of indirections. -/
theorem c6_pointer_default_factory (t : GoType) :
    ((∃ f, getDefaultFactory (.ptrT t) = .ok f) ↔ (∃ f, getDefaultFactory t = .ok f)) ∧
    (∀ e, getDefaultFactory t = .error e →
      getDefaultFactory (.ptrT t) = .error (.noDefaultFactory (.ptrT t))) ∧
    (∀ f, getDefaultFactory t = .ok f →
      ∃ pf, getDefaultFactory (.ptrT t) = .ok pf ∧
        ∀ r v, f r = .ok v → pf r = .ok (.ptrV v)) := by
  cases hel : getDefaultFactory t with
  | error err =>
    obtain ⟨t', ht'⟩ := getDefaultFactory_error_shape t err hel
    subst ht'
    have hptr : getDefaultFactory (.ptrT t) = .error (.noDefaultFactory (.ptrT t)) := by
      simp [getDefaultFactory, hel]
    refine ⟨?_, ?_, ?_⟩
    · constructor
      · rintro ⟨f, hf⟩
        rw [hptr] at hf
        exact absurd hf (by simp)
      · rintro ⟨f, hf⟩
        exact absurd hf (by simp)
    · intro e _
      exact hptr
    · intro f hf
      exact absurd hf (by simp)
  | ok ef =>
    have hptr : getDefaultFactory (.ptrT t) =
        .ok (fun r => match ef r with
          | .error err => .error err
          | .ok v => .ok (.ptrV v)) := by
      simp [getDefaultFactory, hel]
    refine ⟨?_, ?_, ?_⟩
    · exact ⟨fun _ => ⟨ef, rfl⟩, fun _ => ⟨_, hptr⟩⟩
    · intro e he
      exact absurd he (by simp)
    · intro f hf
      injection hf with hff
      subst hff
      refine ⟨_, hptr, ?_⟩
      intro r v hv
      simp [hv]

/-- The factory `getDefaultFactory` returns for `bool` (spelled out for
the C6 witness). -/
def boolZeroFactory : Factory := fun _ => .ok (zeroValue .boolT)

/-- Witness for C6: no factory for `*func()` because none for `func()`,
and the `*bool` factory produces a non-nil pointer to `bool`'s
default-factory value. -/
theorem c6_witness :
    getDefaultFactory (.ptrT (.funcT "f")) =
      .error (.noDefaultFactory (.ptrT (.funcT "f"))) ∧
    ∃ pf, getDefaultFactory (.ptrT .boolT) = .ok pf ∧
      ∀ r v, boolZeroFactory r = .ok v → pf r = .ok (.ptrV v) :=
  ⟨(c6_pointer_default_factory (.funcT "f")).2.1 (.noDefaultFactory (.funcT "f")) rfl,
   (c6_pointer_default_factory .boolT).2.2 boolZeroFactory rfl⟩

/-! Helper notions for the struct-factory claim (C5): what the claim
predicts field by field. -/

/-- The resolver answers a field type with a non-nil value assignable to
it. -/
def goodResolution (r : Resolver) (ftyp : GoType) : Prop :=
  ∃ rt v, r ftyp = .ok (some (rt, v)) ∧ rt.assignableTo ftyp = true

/-- The value the claim predicts for one field: the resolver's value for
an exported field, the zero value for an unexported one. -/
def fieldValue (r : Resolver) (name : String) (ftyp : GoType) : Val :=
  if isExported name then
    match r ftyp with
    | .ok (some (_, v)) => v
    | _ => zeroValue ftyp
  else zeroValue ftyp

/-- The predicted field values of the whole struct. -/
def expectedFields (r : Resolver) : Fields → Vals
  | .nil => .nil
  | .cons name ftyp rest => .cons (fieldValue r name ftyp) (expectedFields r rest)

/-- Every exported field resolves well. -/
def allExportedGood (r : Resolver) : Fields → Prop
  | .nil => True
  | .cons name ftyp rest =>
    (isExported name = true → goodResolution r ftyp) ∧ allExportedGood r rest

/-- The declared types of the exported fields, in declaration order. -/
def exportedTypes : Fields → List GoType
  | .nil => []
  | .cons name ftyp rest =>
    if isExported name then ftyp :: exportedTypes rest else exportedTypes rest

/-- `t` is the declared type of some exported field. -/
def isExportedFieldType : Fields → GoType → Bool
  | .nil, _ => false
  | .cons name ftyp rest, t =>
    (isExported name && ftyp = t) || isExportedFieldType rest t

/-- Concatenation of field lists (to address a field by its position). -/
def fieldsAppend : Fields → Fields → Fields
  | .nil, gs => gs
  | .cons n t rest, gs => .cons n t (fieldsAppend rest gs)

/-- Structural induction over a field list (the mutual inductive blocks
the default `induction` tactic). -/
theorem fieldsInduction (motive : Fields → Prop) (hnil : motive .nil)
    (hcons : ∀ n t rest, motive rest → motive (.cons n t rest)) :
    ∀ fs, motive fs
  | .nil => hnil
  | .cons n t rest => hcons n t rest (fieldsInduction motive hnil hcons rest)

/-- When every exported field resolves well, the field loop succeeds with
the predicted values and the resolver is called exactly at the exported
field types, in declaration order. -/
theorem initFields_success (r : Resolver) (fs : Fields)
    (h : allExportedGood r fs) :
    initFields r fs = .ok (expectedFields r fs) ∧
    structCalls r fs = exportedTypes fs := by
  revert h
  induction fs using fieldsInduction with
  | hnil =>
    intro h
    simp [initFields, structCalls, expectedFields, exportedTypes]
  | hcons name ftyp rest ih =>
    intro h
    obtain ⟨hgood, hrest⟩ := h
    obtain ⟨ihf, ihc⟩ := ih hrest
    by_cases hexp : isExported name = true
    · obtain ⟨rt, v, hr, hass⟩ := hgood hexp
      constructor
      · simp [initFields, hexp, hr, hass, ihf, expectedFields, fieldValue]
      · simp [structCalls, hexp, hr, hass, ihc, exportedTypes]
    · constructor
      · simp [initFields, hexp, ihf, expectedFields, fieldValue]
      · simp [structCalls, hexp, ihc, exportedTypes]

/-- Every type the struct factory requests from the resolver is the
declared type of an exported field: the resolver is never called for an
unexported field. -/
theorem structCalls_exported (r : Resolver) (fs : Fields) (t : GoType)
    (h : t ∈ structCalls r fs) : isExportedFieldType fs t = true := by
  revert h
  induction fs using fieldsInduction with
  | hnil =>
    intro h
    simp [structCalls] at h
  | hcons name ftyp rest ih =>
    intro h
    by_cases hexp : isExported name = true
    · rcases hr : r ftyp with e | res
      · simp [structCalls, hexp, hr] at h
        subst h
        simp [isExportedFieldType, hexp]
      · rcases res with _ | ⟨rt, v⟩
        · simp [structCalls, hexp, hr] at h
          subst h
          simp [isExportedFieldType, hexp]
        · by_cases hass : rt.assignableTo ftyp = true
          · simp [structCalls, hexp, hr, hass] at h
            rcases h with h' | h'
            · subst h'
              simp [isExportedFieldType, hexp]
            · simp [isExportedFieldType, ih h']
          · simp [structCalls, hexp, hr, hass] at h
            subst h
            simp [isExportedFieldType, hexp]
    · simp [structCalls, hexp] at h
      simp [isExportedFieldType, ih h]

/-- A failure of the field loop on a suffix propagates through a
well-resolving prefix unchanged. -/
theorem initFields_append_error (r : Resolver) (pre rest' : Fields) (E : Err)
    (hpre : allExportedGood r pre) (hE : initFields r rest' = .error E) :
    initFields r (fieldsAppend pre rest') = .error E := by
  revert hpre
  induction pre using fieldsInduction with
  | hnil =>
    intro hpre
    simpa [fieldsAppend] using hE
  | hcons name ftyp rest ih =>
    intro hpre
    obtain ⟨hgood, hrest⟩ := hpre
    by_cases hexp : isExported name = true
    · obtain ⟨rt, v, hr, hass⟩ := hgood hexp
      simp [fieldsAppend, initFields, hexp, hr, hass, ih hrest]
    · simp [fieldsAppend, initFields, hexp, ih hrest]

/-- C5: the factory `getDefaultStructFactory` derives for a struct type
runs the field loop `initFields` starting from the struct's zero value;
the loop (i) only ever calls the resolver at exported field types (so
unexported fields never trigger a resolve), (ii) when every exported
field resolves well, succeeds with each exported field set to the
resolver's value for its declared type — requested in declaration order —
and each unexported field left at its zero value, (iii) fails with the
wrapped resolver error if the resolve call for the first problematic
exported field errors, and (iv) fails with
`InvalidResolution{Requested: fieldType, Returned: actual}` if that
field's resolved value is nil (`Returned` nil) or has a dynamic type not
assignable to the field's declared type. -/
theorem c5_struct_default_factory (nm : String) (fs : Fields) (ms : List String)
    (r : Resolver) :
    (getDefaultStructFactory (.structT nm fs ms) =
      .ok (fun rr =>
        match initFields rr fs with
        | .error e => .error e
        | .ok vs => .ok (.structV vs))) ∧
    (∀ t, t ∈ structCalls r fs → isExportedFieldType fs t = true) ∧
    (allExportedGood r fs →
      initFields r fs = .ok (expectedFields r fs) ∧
      structCalls r fs = exportedTypes fs) ∧
    (∀ pre name ftyp post, fs = fieldsAppend pre (.cons name ftyp post) →
      allExportedGood r pre → isExported name = true →
      (∀ e, r ftyp = .error e →
        initFields r fs = .error (.resolverError e)) ∧
      (r ftyp = .ok none →
        initFields r fs = .error (.invalidResolution ftyp none)) ∧
      (∀ rt v, r ftyp = .ok (some (rt, v)) → rt.assignableTo ftyp = false →
        initFields r fs = .error (.invalidResolution ftyp (some rt)))) := by
  refine ⟨rfl, fun t => structCalls_exported r fs t, initFields_success r fs, ?_⟩
  intro pre name ftyp post hfs hpre hexp
  subst hfs
  refine ⟨?_, ?_, ?_⟩
  · intro e hr
    exact initFields_append_error r pre _ _ hpre (by simp [initFields, hexp, hr])
  · intro hr
    exact initFields_append_error r pre _ _ hpre (by simp [initFields, hexp, hr])
  · intro rt v hr hass
    exact initFields_append_error r pre _ _ hpre (by simp [initFields, hexp, hr, hass])

/-- Concrete field list for the C5 witness: one exported `int` field and
one unexported `bool` field. -/
def c5Fs : Fields := .cons "X" .intT (.cons "y" .boolT .nil)

/-- Concrete resolver for the C5 witness: answers `int` with 42 and
errors on anything else. -/
def c5R : Resolver := fun t =>
  if t = .intT then .ok (some (.intT, .intV 42)) else .error (.goError "unexpected")

/-- Witness for C5: the exported field receives the resolver's value, the
unexported field keeps its zero value and is never requested. -/
theorem c5_witness :
    initFields c5R c5Fs = .ok (.cons (.intV 42) (.cons (.boolV false) .nil)) ∧
    structCalls c5R c5Fs = [.intT] := by
  have hgood : allExportedGood c5R c5Fs :=
    ⟨fun _ => ⟨.intT, .intV 42, rfl, by decide⟩,
     fun hy => absurd hy (by decide), trivial⟩
  exact (c5_struct_default_factory "thing" c5Fs [] c5R).2.2.1 hgood

/-- C7: the two registration entry points do not agree on interface
implementation types.  `RegisterFactory` rejects an interface `Impl` with
`NonConcreteImplementation{Type: Impl}` as the spec says, but
`RegisterType` consults `GetDefaultFactory` before the shared validation,
so the same interface `Impl` is rejected with
`NoDefaultFactory{Type: Impl}` instead — contradicting the repository's
own test, which expects `NonConcreteImplementation` from
`RegisterType[io.Reader, io.ReadWriter]`.  This theorem evaluates both
entry points at that failing input. -/
theorem c7_register_iface_divergence :
    RegisterType ⟨[]⟩ ⟨none⟩ (.ifaceT "io.Reader" ["Read"])
        (.ifaceT "io.ReadWriter" ["Read", "Write"]) Transient =
      ((⟨none⟩, some (.noDefaultFactory (.ifaceT "io.ReadWriter" ["Read", "Write"]))), ⟨[]⟩) ∧
    (RegisterFactory ⟨[]⟩ ⟨none⟩ (.ifaceT "io.Reader" ["Read"])
        (.ifaceT "io.ReadWriter" ["Read", "Write"]) Transient
        (some (fun _ => .ok .ptrNilV))).1.2 =
      some (.nonConcreteImplementation (.ifaceT "io.ReadWriter" ["Read", "Write"])) :=
  ⟨rfl, rfl⟩

/-! List lemmas for the registration-heap claims. -/

theorem getD_append_length {α : Type} (l : List α) (x : α) (d : α) :
    (l ++ [x]).getD l.length d = x := by
  induction l with
  | nil => rfl
  | cons a l ih => simp [ih]

theorem getD_append_lt {α : Type} (l : List α) (x : α) (j : Nat) (d : α)
    (hj : j < l.length) : (l ++ [x]).getD j d = l.getD j d := by
  induction l generalizing j with
  | nil => simp at hj
  | cons a l ih =>
    cases j with
    | zero => rfl
    | succ j => simpa using ih j (by simpa using hj)

theorem getD_listSet_self {α : Type} (l : List α) (i : Nat) (x : α) (d : α)
    (hi : i < l.length) : (listSet l i x).getD i d = x := by
  induction l generalizing i with
  | nil => simp at hi
  | cons a l ih =>
    cases i with
    | zero => rfl
    | succ i => simpa [listSet] using ih i (by simpa using hi)

theorem getD_listSet_ne {α : Type} (l : List α) (i j : Nat) (x : α) (d : α)
    (h : i ≠ j) : (listSet l i x).getD j d = l.getD j d := by
  induction l generalizing i j with
  | nil => simp [listSet]
  | cons a l ih =>
    cases i with
    | zero =>
      cases j with
      | zero => exact absurd rfl h
      | succ j => rfl
    | succ i =>
      cases j with
      | zero => rfl
      | succ j => simpa [listSet] using ih i j (by omega)

theorem listSet_of_le {α : Type} (l : List α) (i : Nat) (x : α)
    (h : l.length ≤ i) : listSet l i x = l := by
  induction l generalizing i with
  | nil => rfl
  | cons a l ih =>
    cases i with
    | zero => simp at h
    | succ i => simp [listSet, ih i (by simpa using h)]

/-- A registry's map reference points into the heap (true of every
registry produced by the API, which only hands out references it has
allocated). -/
def regWF (h : RegHeap) (r : Registry) : Prop :=
  ∀ i, r.registrations = some i → i < h.maps.length

/-- C9 (amended): a successful registration returns a registry that maps
the target to the new registration and everything else as before; when
the input registry's map is nil, a fresh map is allocated and every
existing map in the heap — hence the input registry and anything built
from it — is untouched; but when the input registry already references a
map, the call mutates that shared map in place, so the input registry
value observes exactly the same (updated) bindings as the returned
registry, rather than its old ones. -/
theorem c9_registration_effects (h : RegHeap) (r : Registry) (target impl : GoType)
    (l : Lifetime) (f : Factory) (r' : Registry) (h' : RegHeap)
    (hwf : regWF h r)
    (hcall : RegisterFactory h r target impl l (some f) = ((r', none), h')) :
    registryFind h' r' target = some ⟨l, f⟩ ∧
    (∀ t, t ≠ target → registryFind h' r' t = registryFind h r t) ∧
    (r.registrations = none →
      ∀ j, j < h.maps.length → h'.maps.getD j [] = h.maps.getD j []) ∧
    (∀ i, r.registrations = some i → r' = r ∧
      ∀ t, registryFind h' r t = registryFind h' r' t) := by
  rcases hv1 : validateRegistrationTypes target impl with _ | e
  swap
  · rw [RegisterFactory.eq_def, hv1] at hcall
    simp at hcall
  rcases hv2 : validateLifetime impl l with _ | e
  swap
  · rw [RegisterFactory.eq_def, hv1, hv2] at hcall
    simp at hcall
  obtain ⟨rr⟩ := r
  rcases rr with _ | i
  · have hfull : RegisterFactory h ⟨none⟩ target impl l (some f) =
        ((⟨some h.maps.length⟩, none), ⟨h.maps ++ [[(target, ⟨l, f⟩)]]⟩) := by
      simp [RegisterFactory, hv1, hv2, addRegistration]
    have heq := hfull.symm.trans hcall
    have hr' : r' = ⟨some h.maps.length⟩ := (congrArg (fun x => x.1.1) heq).symm
    have hh' : h' = ⟨h.maps ++ [[(target, ⟨l, f⟩)]]⟩ := (congrArg (fun x => x.2) heq).symm
    subst hr'
    subst hh'
    refine ⟨?_, ?_, ?_, ?_⟩
    · simp [registryFind, getD_append_length, alookup]
    · intro t ht
      simp [registryFind, getD_append_length, alookup, Ne.symm ht]
    · intro _ j hj
      simpa using getD_append_lt h.maps [(target, ⟨l, f⟩)] j [] hj
    · intro i hi
      simp at hi
  · have hi_lt : i < h.maps.length := hwf i rfl
    have hfull : RegisterFactory h ⟨some i⟩ target impl l (some f) =
        ((⟨some i⟩, none),
          ⟨listSet h.maps i ((target, ⟨l, f⟩) :: h.maps.getD i [])⟩) := by
      simp [RegisterFactory, hv1, hv2, addRegistration]
    have heq := hfull.symm.trans hcall
    have hr' : r' = ⟨some i⟩ := (congrArg (fun x => x.1.1) heq).symm
    have hh' : h' = ⟨listSet h.maps i ((target, ⟨l, f⟩) :: h.maps.getD i [])⟩ :=
      (congrArg (fun x => x.2) heq).symm
    subst hr'
    subst hh'
    refine ⟨?_, ?_, ?_, ?_⟩
    · simp only [registryFind]
      rw [getD_listSet_self h.maps i _ [] hi_lt]
      exact alookup_cons_self _ _ _
    · intro t ht
      simp only [registryFind]
      rw [getD_listSet_self h.maps i _ [] hi_lt]
      exact alookup_cons_ne _ _ _ _ (Ne.symm ht)
    · intro hnone
      simp at hnone
    · intro i' hi'
      have : i' = i := by
        simp at hi'
        omega
      subst this
      exact ⟨rfl, fun t => rfl⟩

/-- The factory of the first C9 registration. -/
def c9FacA : Factory := fun _ => .ok (.intV 1)

/-- The factory of the second C9 registration. -/
def c9FacB : Factory := fun _ => .ok (.boolV true)

/-- The registry returned by the first C9 registration. -/
def c9R1 : Registry := ⟨some 0⟩

/-- The map heap after the first C9 registration. -/
def c9H1 : RegHeap := ⟨[[(.intT, ⟨Transient, c9FacA⟩)]]⟩

/-- C9 counterexample: registration is not pure.  Starting from the empty
registry, a first successful registration returns registry `c9R1`; a
second successful registration taking `c9R1` as input mutates the map the
two registry values share, so after the call the input value `c9R1` maps
the second target type to the new registration, where before the call it
mapped it to nothing — contradicting the claim that the input registry
still maps exactly the same target types to the same registrations. -/
theorem c9_counterexample :
    RegisterFactory ⟨[]⟩ ⟨none⟩ .intT .intT Transient (some c9FacA) =
      ((c9R1, none), c9H1) ∧
    registryFind c9H1 c9R1 .boolT = none ∧
    (RegisterFactory c9H1 c9R1 .boolT .boolT Transient (some c9FacB)).1.2 = none ∧
    registryFind (RegisterFactory c9H1 c9R1 .boolT .boolT Transient (some c9FacB)).2
      c9R1 .boolT = some ⟨Transient, c9FacB⟩ :=
  ⟨rfl, rfl, rfl, rfl⟩

/-- Witness for the amended C9 theorem, at the second registration of the
counterexample run. -/
theorem c9_witness :
    registryFind (RegisterFactory c9H1 c9R1 .boolT .boolT Transient (some c9FacB)).2
      (RegisterFactory c9H1 c9R1 .boolT .boolT Transient (some c9FacB)).1.1 .boolT =
      some ⟨Transient, c9FacB⟩ :=
  (c9_registration_effects c9H1 c9R1 .boolT .boolT Transient c9FacB _ _
    (fun i hi => by
      have hi0 : i = 0 := by simpa [c9R1] using hi.symm
      subst hi0
      decide) rfl).1

/-! Machinery for the lifetime claims C1 and C2: how one machine step
affects the instance maps, the allocation counter and the ghost log. -/

theorem countSuccessL_append (l1 l2 : List (GoType × Bool)) (t : GoType) :
    countSuccessL (l1 ++ l2) t = countSuccessL l1 t + countSuccessL l2 t := by
  simp [countSuccessL, List.filter_append]

theorem countSuccessL_single_ne (t' t : GoType) (b : Bool) (h : t' ≠ t) :
    countSuccessL [(t', b)] t = 0 := by
  simp [countSuccessL, h]

theorem countSuccessL_single_self (t : GoType) (b : Bool) :
    countSuccessL [(t, b)] t = if b then 1 else 0 := by
  cases b <;> simp [countSuccessL]

/-- A cached entry survives a memoized resolve for any (other or same)
type: the cache only ever gains entries for types it lacks. -/
theorem imr_persist (m : IMap) (t tc : GoType)
    (fac : RsvId → Nat → Except Err Val × Nat) (rsv : RsvId) (alloc : Nat)
    (v : Val) (hv : alookup m tc = some v) :
    alookup (instanceMapResolve m t fac rsv alloc).2.1 tc = some v := by
  rcases h : alookup m t with _ | v'
  · rcases hf : fac rsv alloc with ⟨res, a'⟩
    rcases res with e | v''
    · simp [instanceMapResolve, h, hf, hv]
    · have hne : t ≠ tc := by
        intro he
        rw [he, hv] at h
        exact absurd h (by simp)
      simp [instanceMapResolve, h, hf, alookup_cons_ne _ _ _ _ hne, hv]
  · simp [instanceMapResolve, h, hv]

/-- A memoized resolve for a different type does not change what the
cache stores for `tc`. -/
theorem imr_other (m : IMap) (t tc : GoType)
    (fac : RsvId → Nat → Except Err Val × Nat) (rsv : RsvId) (alloc : Nat)
    (hne : t ≠ tc) :
    alookup (instanceMapResolve m t fac rsv alloc).2.1 tc = alookup m tc := by
  rcases h : alookup m t with _ | v'
  · rcases hf : fac rsv alloc with ⟨res, a'⟩
    rcases res with e | v''
    · simp [instanceMapResolve, h, hf]
    · simp [instanceMapResolve, h, hf, alookup_cons_ne _ _ _ _ hne]
  · simp [instanceMapResolve, h]

/-- A successful memoized resolve leaves the cache holding exactly the
returned value. -/
theorem imr_ok_cached (m : IMap) (t : GoType)
    (fac : RsvId → Nat → Except Err Val × Nat) (rsv : RsvId) (alloc : Nat)
    (v : Val)
    (hok : (instanceMapResolve m t fac rsv alloc).1 = .ok v) :
    alookup (instanceMapResolve m t fac rsv alloc).2.1 t = some v := by
  rcases h : alookup m t with _ | v'
  · rcases hf : fac rsv alloc with ⟨res, a'⟩
    rcases res with e | v''
    · rw [instanceMapResolve, h, hf] at hok ⊢
      simp at hok
    · rw [instanceMapResolve, h, hf] at hok ⊢
      simp at hok
      simp [hok, alookup_cons_self]
  · rw [instanceMapResolve, h] at hok ⊢
    simp at hok
    simp [hok, h]

/-- A cached singleton survives any root resolve. -/
theorem rootResolve_singletons_persist (p : RootProviderM) (w : World)
    (t tc : GoType) (v : Val) (hv : alookup w.singletons tc = some v) :
    alookup (rootResolve p w t).2.singletons tc = some v := by
  rcases hr : alookup p.registrations t with _ | reg
  · simp [rootResolve, hr, hv]
  · by_cases h1 : reg.lifetime = Transient
    · rcases hf : reg.factory .root w.alloc with ⟨res, a'⟩
      simp [rootResolve, hr, h1, hf, hv]
    · by_cases h2 : reg.lifetime = Scoped
      · simp [rootResolve, hr, h1, h2, hv, Transient, Scoped, Singleton]
      · by_cases h3 : reg.lifetime = Singleton
        · rcases him : instanceMapResolve w.singletons t reg.factory .root w.alloc
            with ⟨res, m', a', inv⟩
          have hp := imr_persist w.singletons t tc reg.factory .root w.alloc v hv
          rw [him] at hp
          simpa [rootResolve, hr, h1, h2, h3, him, Transient, Scoped, Singleton] using hp
        · simp [rootResolve, hr, h1, h2, h3, hv]

/-- Root resolves never touch the scoped instance maps. -/
theorem rootResolve_scopes (p : RootProviderM) (w : World) (t : GoType) :
    (rootResolve p w t).2.scopes = w.scopes := by
  rcases hr : alookup p.registrations t with _ | reg
  · simp [rootResolve, hr]
  · by_cases h1 : reg.lifetime = Transient
    · rcases hf : reg.factory .root w.alloc with ⟨res, a'⟩
      simp [rootResolve, hr, h1, hf]
    · by_cases h2 : reg.lifetime = Scoped
      · simp [rootResolve, hr, h1, h2, Transient, Scoped, Singleton]
      · by_cases h3 : reg.lifetime = Singleton
        · rcases him : instanceMapResolve w.singletons t reg.factory .root w.alloc
            with ⟨res, m', a', inv⟩
          simp [rootResolve, hr, h1, h2, h3, him, Transient, Scoped, Singleton]
        · simp [rootResolve, hr, h1, h2, h3]

/-- A successful root resolve of a singleton-registered type leaves the
singleton cache holding the returned instance. -/
theorem rootResolve_ok_cached (p : RootProviderM) (tc : GoType) (reg : RegS)
    (hreg : alookup p.registrations tc = some reg)
    (hsing : reg.lifetime = Singleton) (w : World) (v : Val)
    (hok : (rootResolve p w tc).1 = .ok v) :
    alookup (rootResolve p w tc).2.singletons tc = some v := by
  rcases him : instanceMapResolve w.singletons tc reg.factory .root w.alloc
    with ⟨res, m', a', inv⟩
  have hc := imr_ok_cached w.singletons tc reg.factory .root w.alloc v
  rw [him] at hc
  rw [rootResolve, hreg] at hok ⊢
  simp only [hsing, Transient, Scoped, Singleton] at hok ⊢
  norm_num at hok ⊢
  rw [him] at hok ⊢
  exact hc hok

/-- A cached singleton survives any scope resolve. -/
theorem scopeResolve_singletons_persist (p : RootProviderM) (w : World)
    (sid : Nat) (t tc : GoType) (v : Val)
    (hv : alookup w.singletons tc = some v) :
    alookup (scopeResolve p w sid t).2.singletons tc = some v := by
  rcases hr : alookup p.registrations t with _ | reg
  · rw [scopeResolve, hr]
    exact rootResolve_singletons_persist p w t tc v hv
  · by_cases h2 : reg.lifetime = Scoped
    · rcases him : instanceMapResolve (getScope w.scopes sid) t reg.factory
        (.scope sid) w.alloc with ⟨res, m', a', inv⟩
      simp [scopeResolve, hr, h2, him, hv]
    · rw [scopeResolve, hr]
      simp only [h2, if_false]
      exact rootResolve_singletons_persist p w t tc v hv

/-- A successful scope resolve of a singleton-registered type delegates
to the root and leaves the singleton cache holding the returned
instance. -/
theorem scopeResolve_ok_cached (p : RootProviderM) (tc : GoType) (reg : RegS)
    (hreg : alookup p.registrations tc = some reg)
    (hsing : reg.lifetime = Singleton) (w : World) (sid : Nat) (v : Val)
    (hok : (scopeResolve p w sid tc).1 = .ok v) :
    alookup (scopeResolve p w sid tc).2.singletons tc = some v := by
  have h2 : ¬(reg.lifetime = Scoped) := by
    rw [hsing]
    decide
  rw [scopeResolve, hreg] at hok ⊢
  simp only [h2, if_false] at hok ⊢
  exact rootResolve_ok_cached p tc reg hreg hsing w v hok

/-- A cached singleton survives any machine step. -/
theorem step_singletons_persist (p : RootProviderM) (w : World) (op : Op)
    (tc : GoType) (v : Val) (hv : alookup w.singletons tc = some v) :
    alookup (step p w op).1.singletons tc = some v := by
  cases op with
  | newScope => simpa [step] using hv
  | resolveRoot t =>
    rcases hrr : rootResolve p w t with ⟨res, w'⟩
    have := rootResolve_singletons_persist p w t tc v hv
    rw [hrr] at this
    simpa [step, hrr] using this
  | resolveScope sid t =>
    rcases hrr : scopeResolve p w sid t with ⟨res, w'⟩
    have := scopeResolve_singletons_persist p w sid t tc v hv
    rw [hrr] at this
    simpa [step, hrr] using this

/-- A cached singleton survives a whole run. -/
theorem run_singletons_persist (p : RootProviderM) (tc : GoType) (v : Val)
    (ops : List Op) : ∀ (w : World), alookup w.singletons tc = some v →
    alookup (run p w ops).singletons tc = some v := by
  induction ops with
  | nil =>
    intro w hv
    simpa [run] using hv
  | cons op rest ih =>
    intro w hv
    rw [run]
    exact ih _ (step_singletons_persist p w op tc v hv)

/-- `op` is a resolve call for `t` (on the root, or on any scope). -/
def resolvesT (op : Op) (t : GoType) : Prop :=
  op = .resolveRoot t ∨ ∃ sid, op = .resolveScope sid t

/-- A resolve step for a singleton-registered type that returns `ok v`
leaves `v` in the singleton cache. -/
theorem step_ok_cached (p : RootProviderM) (tc : GoType) (reg : RegS)
    (hreg : alookup p.registrations tc = some reg)
    (hsing : reg.lifetime = Singleton) (w : World) (op : Op) (v : Val)
    (hop : resolvesT op tc) (hok : (step p w op).2 = some (.ok v)) :
    alookup (step p w op).1.singletons tc = some v := by
  rcases hop with h | ⟨sid, h⟩
  · subst h
    rcases hrr : rootResolve p w tc with ⟨res, w'⟩
    rw [step, hrr] at hok ⊢
    simp at hok
    have := rootResolve_ok_cached p tc reg hreg hsing w v (by rw [hrr, hok])
    rw [hrr] at this
    simpa using this
  · subst h
    rcases hrr : scopeResolve p w sid tc with ⟨res, w'⟩
    rw [step, hrr] at hok ⊢
    simp at hok
    have := scopeResolve_ok_cached p tc reg hreg hsing w sid v (by rw [hrr, hok])
    rw [hrr] at this
    simpa using this

/-- A successful resolve of a singleton-registered type anywhere in a run
determines the singleton cache's final entry for that type. -/
theorem results_ok_final (p : RootProviderM) (tc : GoType) (reg : RegS)
    (hreg : alookup p.registrations tc = some reg)
    (hsing : reg.lifetime = Singleton) (ops : List Op) :
    ∀ (w : World) (i : Nat) (opi : Op) (v : Val),
      ops.get? i = some opi → resolvesT opi tc →
      (results p w ops).get? i = some (some (.ok v)) →
      alookup (run p w ops).singletons tc = some v := by
  induction ops with
  | nil =>
    intro w i opi v hget
    simp at hget
  | cons op rest ih =>
    intro w i opi v hget hres hok
    cases i with
    | zero =>
      rw [List.get?_cons_zero] at hget
      injection hget with hget
      rw [results, List.get?_cons_zero] at hok
      injection hok with hok
      rw [run]
      refine run_singletons_persist p tc v rest _
        (step_ok_cached p tc reg hreg hsing w op v ?_ hok)
      rw [hget]
      exact hres
    | succ i =>
      rw [List.get?_cons_succ] at hget
      rw [results, List.get?_cons_succ] at hok
      rw [run]
      exact ih _ i opi v hget hres hok

/-- The at-most-one-successful-construction invariant for a singleton
type: either nothing is cached and no factory invocation has succeeded,
or an instance is cached and exactly one invocation has succeeded. -/
def singletonCountInv (w : World) (tc : GoType) : Prop :=
  (alookup w.singletons tc = none ∧ countSuccess w tc = 0) ∨
  (∃ v, alookup w.singletons tc = some v ∧ countSuccess w tc = 1)

theorem singletonCountInv_transport (w w' : World) (tc : GoType)
    (hmap : alookup w'.singletons tc = alookup w.singletons tc)
    (hcount : countSuccess w' tc = countSuccess w tc)
    (hinv : singletonCountInv w tc) : singletonCountInv w' tc := by
  rcases hinv with ⟨h1, h2⟩ | ⟨v, h1, h2⟩
  · exact Or.inl ⟨by rw [hmap, h1], by rw [hcount, h2]⟩
  · exact Or.inr ⟨v, by rw [hmap, h1], by rw [hcount, h2]⟩

theorem countSuccessL_logIf_ne (log : List (GoType × Bool)) (t tc : GoType)
    (res : Except Err Val) (inv : Bool) (hne : t ≠ tc) :
    countSuccessL (logIf inv log t res) tc = countSuccessL log tc := by
  cases inv <;>
    simp [logIf, countSuccessL_append, countSuccessL_single_ne t tc _ hne]

/-- Any root resolve preserves the singleton invariant for a
singleton-registered type. -/
theorem rootResolve_count_inv (p : RootProviderM) (tc : GoType) (reg : RegS)
    (hreg : alookup p.registrations tc = some reg)
    (hsing : reg.lifetime = Singleton) (w : World) (t : GoType)
    (hinv : singletonCountInv w tc) :
    singletonCountInv (rootResolve p w t).2 tc := by
  by_cases hne : t = tc
  · subst hne
    rcases hc : alookup w.singletons t with _ | v0
    · have hcount0 : countSuccess w t = 0 := by
        rcases hinv with ⟨h1, h2⟩ | ⟨v, h1, h2⟩
        · exact h2
        · rw [hc] at h1
          cases h1
      rcases hf : reg.factory .root w.alloc with ⟨res, a'⟩
      rcases res with e | v''
      · have him : instanceMapResolve w.singletons t reg.factory .root w.alloc =
            (.error e, w.singletons, a', true) := by
          simp [instanceMapResolve, hc, hf]
        have hroot : (rootResolve p w t).2 = { w with alloc := a', invocations := w.invocations ++ [(t, false)] } := by
          rw [rootResolve, hreg]
          simp [hsing, Transient, Scoped, Singleton, him, logIf, isOkB]
        rw [hroot]
        refine Or.inl ⟨hc, ?_⟩
        show countSuccessL (w.invocations ++ [(t, false)]) t = 0
        rw [countSuccessL_append, countSuccessL_single_self]
        simpa [countSuccess] using hcount0
      · have him : instanceMapResolve w.singletons t reg.factory .root w.alloc =
            (.ok v'', (t, v'') :: w.singletons, a', true) := by
          simp [instanceMapResolve, hc, hf]
        have hroot : (rootResolve p w t).2 = { w with singletons := (t, v'') :: w.singletons, alloc := a', invocations := w.invocations ++ [(t, true)] } := by
          rw [rootResolve, hreg]
          simp [hsing, Transient, Scoped, Singleton, him, logIf, isOkB]
        rw [hroot]
        refine Or.inr ⟨v'', alookup_cons_self _ _ _, ?_⟩
        show countSuccessL (w.invocations ++ [(t, true)]) t = 1
        rw [countSuccessL_append, countSuccessL_single_self]
        simpa [countSuccess] using hcount0
    · have him : instanceMapResolve w.singletons t reg.factory .root w.alloc =
          (.ok v0, w.singletons, w.alloc, false) := by
        simp [instanceMapResolve, hc]
      have hroot : (rootResolve p w t).2 = w := by
        rw [rootResolve, hreg]
        simp [hsing, Transient, Scoped, Singleton, him, logIf]
      rw [hroot]
      exact hinv
  · rcases hr : alookup p.registrations t with _ | reg'
    · have hroot : (rootResolve p w t).2 = w := by
        rw [rootResolve, hr]
      rw [hroot]
      exact hinv
    · by_cases h1 : reg'.lifetime = Transient
      · rcases hf : reg'.factory .root w.alloc with ⟨res, a'⟩
        have hroot : (rootResolve p w t).2 = { w with alloc := a', invocations := logIf true w.invocations t res } := by
          rw [rootResolve, hr]
          simp [h1, hf]
        rw [hroot]
        refine singletonCountInv_transport w _ tc rfl ?_ hinv
        show countSuccessL (logIf true w.invocations t res) tc = countSuccess w tc
        rw [countSuccessL_logIf_ne _ _ _ _ _ hne]
        rfl
      · by_cases h2 : reg'.lifetime = Scoped
        · have hroot : (rootResolve p w t).2 = w := by
            rw [rootResolve, hr]
            simp [h1, h2, Transient, Scoped, Singleton]
          rw [hroot]
          exact hinv
        · by_cases h3 : reg'.lifetime = Singleton
          · rcases him : instanceMapResolve w.singletons t reg'.factory .root w.alloc
              with ⟨res, m', a', inv⟩
            have hother := imr_other w.singletons t tc reg'.factory .root w.alloc hne
            rw [him] at hother
            have hroot : (rootResolve p w t).2 = { w with singletons := m', alloc := a', invocations := logIf inv w.invocations t res } := by
              rw [rootResolve, hr]
              simp [h1, h2, h3, him, Transient, Scoped, Singleton]
            rw [hroot]
            refine singletonCountInv_transport w _ tc hother ?_ hinv
            show countSuccessL (logIf inv w.invocations t res) tc = countSuccess w tc
            rw [countSuccessL_logIf_ne _ _ _ _ _ hne]
            rfl
          · have hroot : (rootResolve p w t).2 = w := by
              rw [rootResolve, hr]
              simp [h1, h2, h3]
            rw [hroot]
            exact hinv

/-- Any scope resolve preserves the singleton invariant for a
singleton-registered type. -/
theorem scopeResolve_count_inv (p : RootProviderM) (tc : GoType) (reg : RegS)
    (hreg : alookup p.registrations tc = some reg)
    (hsing : reg.lifetime = Singleton) (w : World) (sid : Nat) (t : GoType)
    (hinv : singletonCountInv w tc) :
    singletonCountInv (scopeResolve p w sid t).2 tc := by
  rcases hr : alookup p.registrations t with _ | reg'
  · rw [scopeResolve, hr]
    exact rootResolve_count_inv p tc reg hreg hsing w t hinv
  · by_cases h2 : reg'.lifetime = Scoped
    · have hne : t ≠ tc := by
        intro he
        subst he
        rw [hreg] at hr
        injection hr with hr
        rw [← hr, hsing] at h2
        exact absurd h2 (by decide)
      rcases him : instanceMapResolve (getScope w.scopes sid) t reg'.factory
          (.scope sid) w.alloc with ⟨res, m', a', inv⟩
      have hsc : (scopeResolve p w sid t).2 = { w with scopes := listSet w.scopes sid m', alloc := a', invocations := logIf inv w.invocations t res } := by
        rw [scopeResolve, hr]
        simp [h2, him]
      rw [hsc]
      refine singletonCountInv_transport w _ tc rfl ?_ hinv
      show countSuccessL (logIf inv w.invocations t res) tc = countSuccess w tc
      rw [countSuccessL_logIf_ne _ _ _ _ _ hne]
      rfl
    · rw [scopeResolve, hr]
      simp only [h2, if_false]
      exact rootResolve_count_inv p tc reg hreg hsing w t hinv

/-- Any machine step preserves the singleton invariant. -/
theorem step_count_inv (p : RootProviderM) (tc : GoType) (reg : RegS)
    (hreg : alookup p.registrations tc = some reg)
    (hsing : reg.lifetime = Singleton) (w : World) (op : Op)
    (hinv : singletonCountInv w tc) :
    singletonCountInv (step p w op).1 tc := by
  cases op with
  | newScope =>
    refine singletonCountInv_transport w _ tc rfl rfl hinv
  | resolveRoot t =>
    rcases hrr : rootResolve p w t with ⟨res, w'⟩
    have := rootResolve_count_inv p tc reg hreg hsing w t hinv
    rw [hrr] at this
    simpa [step, hrr] using this
  | resolveScope sid t =>
    rcases hrr : scopeResolve p w sid t with ⟨res, w'⟩
    have := scopeResolve_count_inv p tc reg hreg hsing w sid t hinv
    rw [hrr] at this
    simpa [step, hrr] using this

/-- A whole run preserves the singleton invariant. -/
theorem run_count_inv (p : RootProviderM) (tc : GoType) (reg : RegS)
    (hreg : alookup p.registrations tc = some reg)
    (hsing : reg.lifetime = Singleton) (ops : List Op) :
    ∀ (w : World), singletonCountInv w tc →
      singletonCountInv (run p w ops) tc := by
  induction ops with
  | nil =>
    intro w hinv
    simpa [run] using hinv
  | cons op rest ih =>
    intro w hinv
    rw [run]
    exact ih _ (step_count_inv p tc reg hreg hsing w op hinv)

/-- C1 (amended): for a Singleton registration in a built root provider,
over any sequence of operations (creating scopes and nested scopes,
resolving on the root or on any scope, in any combination and order), any
two Resolve calls for the registered type that return instances return
the identical instance, and at most one invocation of the registration's
factory constructs successfully per root provider (after the first
successful construction the factory is never run again; the original
claim's stronger "invoked at most once" fails only because a factory
*error* is deliberately not memoized and is retried — see the
counterexample). -/
theorem c1_singleton_identity (regs : List (GoType × RegS)) (a0 : Nat)
    (tc : GoType) (reg : RegS)
    (hreg : alookup regs tc = some reg) (hsing : reg.lifetime = Singleton)
    (ops : List Op) :
    (∀ i j opi opj vi vj,
      ops.get? i = some opi → resolvesT opi tc →
      ops.get? j = some opj → resolvesT opj tc →
      (results (buildRootProviderM regs a0).1 (buildRootProviderM regs a0).2 ops).get? i =
        some (some (.ok vi)) →
      (results (buildRootProviderM regs a0).1 (buildRootProviderM regs a0).2 ops).get? j =
        some (some (.ok vj)) →
      vi = vj) ∧
    countSuccess (run (buildRootProviderM regs a0).1 (buildRootProviderM regs a0).2 ops) tc ≤ 1 := by
  have hreg' : alookup (buildRootProviderM regs a0).1.registrations tc = some reg := hreg
  constructor
  · intro i j opi opj vi vj hgi hri hgj hrj hoki hokj
    have h1 := results_ok_final (buildRootProviderM regs a0).1 tc reg hreg' hsing ops
      (buildRootProviderM regs a0).2 i opi vi hgi hri hoki
    have h2 := results_ok_final (buildRootProviderM regs a0).1 tc reg hreg' hsing ops
      (buildRootProviderM regs a0).2 j opj vj hgj hrj hokj
    rw [h1] at h2
    injection h2
  · have hinv := run_count_inv (buildRootProviderM regs a0).1 tc reg hreg' hsing ops
      (buildRootProviderM regs a0).2 (Or.inl ⟨rfl, rfl⟩)
    rcases hinv with ⟨_, h⟩ | ⟨v, _, h⟩ <;> omega

/-- The factory of the C1 counterexample: it fails on its first
invocation (while the allocation counter is still 0) and succeeds on
later ones. -/
def c1Fac : RsvId → Nat → Except Err Val × Nat := fun _ n =>
  if n = 0 then (.error (.goError "boom"), 1) else (.ok (.addrV n), n + 1)

/-- The registrations of the C1 counterexample: one Singleton
registration for `int`. -/
def c1Regs : List (GoType × RegS) := [(.intT, ⟨Singleton, c1Fac⟩)]

/-- C1 counterexample: the claim's "factory is invoked at most once per
root provider" is false as stated.  With a Singleton registration whose
factory errors on its first invocation, two sequential Resolve calls on
the freshly built root provider invoke the factory twice: the failed
construction is not memoized (instance_map.go returns the error without
caching), so the second Resolve retries it. -/
theorem c1_counterexample :
    alookup c1Regs .intT = some ⟨Singleton, c1Fac⟩ ∧
    countInvocations
      (run (buildRootProviderM c1Regs 0).1 (buildRootProviderM c1Regs 0).2
        [.resolveRoot .intT, .resolveRoot .intT]) .intT = 2 :=
  ⟨rfl, rfl⟩

/-- The factory of the C1 witness: always constructs a fresh instance. -/
def c1wFac : RsvId → Nat → Except Err Val × Nat := fun _ n => (.ok (.addrV n), n + 1)

/-- The registrations of the C1 witness. -/
def c1wRegs : List (GoType × RegS) := [(.intT, ⟨Singleton, c1wFac⟩)]

/-- Witness for C1: a root resolve and a scope resolve of the singleton
type return the identical instance, and at most one construction
succeeded. -/
theorem c1_witness :
    (Val.addrV 0 : Val) = .addrV 0 ∧
    countSuccess
      (run (buildRootProviderM c1wRegs 0).1 (buildRootProviderM c1wRegs 0).2
        [.newScope, .resolveRoot .intT, .resolveScope 0 .intT]) .intT ≤ 1 :=
  have h := c1_singleton_identity c1wRegs 0 .intT ⟨Singleton, c1wFac⟩ rfl rfl
    [.newScope, .resolveRoot .intT, .resolveScope 0 .intT]
  ⟨h.1 1 2 (.resolveRoot .intT) (.resolveScope 0 .intT) (.addrV 0) (.addrV 0)
    rfl (Or.inl rfl) rfl (Or.inr ⟨0, rfl⟩) rfl rfl, h.2⟩

/-! Machinery for the Scoped-lifetime claim C2: how steps affect the
per-scope instance maps. -/

theorem getScope_oob (ss : List IMap) (sid : Nat) (h : ss.length ≤ sid) :
    getScope ss sid = [] := by
  induction ss generalizing sid with
  | nil => cases sid <;> rfl
  | cons s ss ih =>
    cases sid with
    | zero => simp at h
    | succ sid => exact ih sid (by simpa using h)

theorem alookup_getScope_lt (ss : List IMap) (sid : Nat) (tc : GoType) (v : Val)
    (h : alookup (getScope ss sid) tc = some v) : sid < ss.length := by
  by_contra hge
  rw [getScope_oob ss sid (by omega)] at h
  exact absurd h (by simp [alookup])

theorem getScope_append_lt (ss : List IMap) (x : IMap) (sid : Nat)
    (h : sid < ss.length) : getScope (ss ++ [x]) sid = getScope ss sid := by
  induction ss generalizing sid with
  | nil => simp at h
  | cons s ss ih =>
    cases sid with
    | zero => rfl
    | succ sid => exact ih sid (by simpa using h)

theorem getScope_listSet_self (ss : List IMap) (i : Nat) (m : IMap)
    (h : i < ss.length) : getScope (listSet ss i m) i = m := by
  induction ss generalizing i with
  | nil => simp at h
  | cons s ss ih =>
    cases i with
    | zero => rfl
    | succ i => exact ih i (by simpa using h)

theorem getScope_listSet_ne (ss : List IMap) (i j : Nat) (m : IMap)
    (h : j ≠ i) : getScope (listSet ss i m) j = getScope ss j := by
  induction ss generalizing i j with
  | nil => simp [listSet]
  | cons s ss ih =>
    cases i with
    | zero =>
      cases j with
      | zero => exact absurd rfl h
      | succ j => rfl
    | succ i =>
      cases j with
      | zero => rfl
      | succ j => exact ih i j (by omega)

theorem length_listSet {α : Type} (l : List α) (i : Nat) (x : α) :
    (listSet l i x).length = l.length := by
  induction l generalizing i with
  | nil => rfl
  | cons a l ih =>
    cases i with
    | zero => rfl
    | succ i => simpa [listSet] using ih i

/-- A scoped cache entry survives any machine step (the entry can only
have been stored in an existing scope, and no step removes or overwrites
entries). -/
theorem step_scope_persist (p : RootProviderM) (w : World) (op : Op)
    (sid : Nat) (tc : GoType) (v : Val)
    (hv : alookup (getScope w.scopes sid) tc = some v) :
    alookup (getScope (step p w op).1.scopes sid) tc = some v := by
  have hlt : sid < w.scopes.length := alookup_getScope_lt _ _ _ _ hv
  cases op with
  | newScope =>
    simpa [step, getScope_append_lt w.scopes [] sid hlt] using hv
  | resolveRoot t =>
    rcases hrr : rootResolve p w t with ⟨res, w'⟩
    have hs := rootResolve_scopes p w t
    rw [hrr] at hs
    simp only [step, hrr]
    rw [hs]
    exact hv
  | resolveScope sid' t =>
    rcases hr : alookup p.registrations t with _ | reg'
    · rcases hrr : rootResolve p w t with ⟨res, w'⟩
      have hs := rootResolve_scopes p w t
      rw [hrr] at hs
      simp only [step, scopeResolve, hr, hrr]
      rw [hs]
      exact hv
    · by_cases h2 : reg'.lifetime = Scoped
      · rcases him : instanceMapResolve (getScope w.scopes sid') t reg'.factory
          (.scope sid') w.alloc with ⟨res, m', a', inv⟩
        have hsc : (scopeResolve p w sid' t).2 = { w with scopes := listSet w.scopes sid' m', alloc := a', invocations := logIf inv w.invocations t res } := by
          rw [scopeResolve, hr]
          simp [h2, him]
        rcases hrr : scopeResolve p w sid' t with ⟨res2, w'⟩
        rw [hrr] at hsc
        simp only at hsc
        simp only [step, hrr]
        rw [hsc]
        by_cases hss : sid = sid'
        · subst hss
          have hp := imr_persist (getScope w.scopes sid) t tc reg'.factory (.scope sid) w.alloc v hv
          rw [him] at hp
          simpa [getScope_listSet_self w.scopes sid m' hlt] using hp
        · simpa [getScope_listSet_ne w.scopes sid' sid m' hss] using hv
      · rcases hrr : rootResolve p w t with ⟨res, w'⟩
        have hs := rootResolve_scopes p w t
        rw [hrr] at hs
        simp only [step, scopeResolve, hr, h2, if_false, hrr]
        rw [hs]
        exact hv

/-- A scoped cache entry survives a whole run. -/
theorem run_scope_persist (p : RootProviderM) (sid : Nat) (tc : GoType) (v : Val)
    (ops : List Op) : ∀ (w : World),
    alookup (getScope w.scopes sid) tc = some v →
    alookup (getScope (run p w ops).scopes sid) tc = some v := by
  induction ops with
  | nil =>
    intro w hv
    simpa [run] using hv
  | cons op rest ih =>
    intro w hv
    rw [run]
    exact ih _ (step_scope_persist p w op sid tc v hv)

/-- A successful scope resolve of a Scoped-registered type on an existing
scope leaves the returned instance in that scope's cache. -/
theorem scopeResolve_ok_cached_scoped (p : RootProviderM) (tc : GoType)
    (reg : RegS) (hreg : alookup p.registrations tc = some reg)
    (hsc : reg.lifetime = Scoped) (w : World) (sid : Nat) (v : Val)
    (hsid : sid < w.scopes.length)
    (hok : (scopeResolve p w sid tc).1 = .ok v) :
    alookup (getScope (scopeResolve p w sid tc).2.scopes sid) tc = some v := by
  rcases him : instanceMapResolve (getScope w.scopes sid) tc reg.factory
    (.scope sid) w.alloc with ⟨res, m', a', inv⟩
  have hc := imr_ok_cached (getScope w.scopes sid) tc reg.factory (.scope sid) w.alloc v
  rw [him] at hc
  rw [scopeResolve, hreg] at hok ⊢
  simp [hsc, him] at hok ⊢
  rw [getScope_listSet_self w.scopes sid m' hsid]
  exact hc hok

/-- Scope resolves never change how many scopes exist. -/
theorem scopeResolve_scopes_length (p : RootProviderM) (w : World) (sid : Nat)
    (t : GoType) : (scopeResolve p w sid t).2.scopes.length = w.scopes.length := by
  rcases hr : alookup p.registrations t with _ | reg'
  · rw [scopeResolve, hr, rootResolve_scopes]
  · by_cases h2 : reg'.lifetime = Scoped
    · rcases him : instanceMapResolve (getScope w.scopes sid) t reg'.factory
        (.scope sid) w.alloc with ⟨res, m', a', inv⟩
      rw [scopeResolve, hr]
      simp [h2, him, length_listSet]
    · rw [scopeResolve, hr]
      simp only [h2, if_false]
      rw [rootResolve_scopes]

/-- Validity of the remaining operations carries across a step. -/
theorem opsValid_step (p : RootProviderM) (w : World) (op : Op) (rest : List Op)
    (hv : opsValid w.scopes.length (op :: rest) = true) :
    opsValid (step p w op).1.scopes.length rest = true := by
  cases op with
  | newScope =>
    rw [opsValid] at hv
    have hlen : (step p w .newScope).1.scopes.length = w.scopes.length + 1 := by
      simp [step]
    rw [hlen]
    exact hv
  | resolveRoot t =>
    rw [opsValid] at hv
    have hlen : (step p w (.resolveRoot t)).1.scopes.length = w.scopes.length := by
      rcases hrr : rootResolve p w t with ⟨res, w'⟩
      have hs := rootResolve_scopes p w t
      rw [hrr] at hs
      simp only at hs
      simp [step, hrr, hs]
    rw [hlen]
    exact hv
  | resolveScope sid t =>
    rw [opsValid] at hv
    simp at hv
    have hlen : (step p w (.resolveScope sid t)).1.scopes.length = w.scopes.length := by
      rcases hrr : scopeResolve p w sid t with ⟨res, w'⟩
      have hs := scopeResolve_scopes_length p w sid t
      rw [hrr] at hs
      simp only at hs
      simp [step, hrr, hs]
    rw [hlen]
    exact hv.2

/-- Step version of `scopeResolve_ok_cached_scoped`. -/
theorem step_ok_cached_scoped (p : RootProviderM) (tc : GoType) (reg : RegS)
    (hreg : alookup p.registrations tc = some reg)
    (hsc : reg.lifetime = Scoped) (w : World) (sid : Nat) (v : Val)
    (hsid : sid < w.scopes.length)
    (hok : (step p w (.resolveScope sid tc)).2 = some (.ok v)) :
    alookup (getScope (step p w (.resolveScope sid tc)).1.scopes sid) tc = some v := by
  rcases hrr : scopeResolve p w sid tc with ⟨res, w'⟩
  rw [step, hrr] at hok ⊢
  simp at hok
  have := scopeResolve_ok_cached_scoped p tc reg hreg hsc w sid v hsid (by rw [hrr, hok])
  rw [hrr] at this
  simpa using this

/-- A successful scoped resolve anywhere in a valid run determines the
final cache entry of the scope it was made on. -/
theorem results_ok_final_scoped (p : RootProviderM) (tc : GoType) (reg : RegS)
    (hreg : alookup p.registrations tc = some reg)
    (hsc : reg.lifetime = Scoped) (ops : List Op) :
    ∀ (w : World) (i sid : Nat) (v : Val),
      opsValid w.scopes.length ops = true →
      ops.get? i = some (.resolveScope sid tc) →
      (results p w ops).get? i = some (some (.ok v)) →
      alookup (getScope (run p w ops).scopes sid) tc = some v := by
  induction ops with
  | nil =>
    intro w i sid v hval hget
    simp at hget
  | cons op rest ih =>
    intro w i sid v hval hget hok
    cases i with
    | zero =>
      rw [List.get?_cons_zero] at hget
      injection hget with hget
      subst hget
      rw [results, List.get?_cons_zero] at hok
      injection hok with hok
      rw [opsValid] at hval
      simp at hval
      rw [run]
      exact run_scope_persist p sid tc v rest _
        (step_ok_cached_scoped p tc reg hreg hsc w sid v hval.1 hok)
    | succ i =>
      rw [List.get?_cons_succ] at hget
      rw [results, List.get?_cons_succ] at hok
      rw [run]
      exact ih _ i sid v (opsValid_step p w op rest hval) hget hok

/-- The factory allocates: every successful invocation returns a fresh
heap reference stamped with the current allocation counter and advances
the counter (the behaviour of Go's `reflect.New`-style construction,
which the default factories for sharable pointer types perform). -/
def FreshAlloc (fac : RsvId → Nat → Except Err Val × Nat) : Prop :=
  ∀ r n v n', fac r n = (.ok v, n') → v = .addrV n ∧ n' = n + 1

/-- A factory never rewinds the allocation counter (every Go factory: the
heap only grows). -/
def MonoFac (fac : RsvId → Nat → Except Err Val × Nat) : Prop :=
  ∀ r n, n ≤ (fac r n).2

/-- All registered factories are allocation-monotone. -/
def AllMono (regs : List (GoType × RegS)) : Prop :=
  ∀ t rg, alookup regs t = some rg → MonoFac rg.factory

/-- The cross-scope invariant for a Scoped type `tc`: every scoped cache
entry for `tc` is a heap reference allocated before the current counter,
and entries of two different scopes are references to different
allocations. -/
def scOK (ss : List IMap) (alloc : Nat) (tc : GoType) : Prop :=
  (∀ sid v, alookup (getScope ss sid) tc = some v →
    ∃ a, v = .addrV a ∧ a < alloc) ∧
  (∀ sid sid' a a', sid ≠ sid' →
    alookup (getScope ss sid) tc = some (.addrV a) →
    alookup (getScope ss sid') tc = some (.addrV a') → a ≠ a')

theorem scOK_transport (ss ss' : List IMap) (alloc alloc' : Nat) (tc : GoType)
    (hmap : ∀ sid, alookup (getScope ss' sid) tc = alookup (getScope ss sid) tc)
    (halloc : alloc ≤ alloc') (h : scOK ss alloc tc) : scOK ss' alloc' tc := by
  obtain ⟨h1, h2⟩ := h
  constructor
  · intro sid v hv
    rw [hmap sid] at hv
    obtain ⟨a, ha, hlt⟩ := h1 sid v hv
    exact ⟨a, ha, lt_of_lt_of_le hlt halloc⟩
  · intro sid sid' a a' hne hv hv'
    rw [hmap sid] at hv
    rw [hmap sid'] at hv'
    exact h2 sid sid' a a' hne hv hv'

theorem getScope_append_self (ss : List IMap) (x : IMap) :
    getScope (ss ++ [x]) ss.length = x := by
  induction ss with
  | nil => rfl
  | cons s ss ih => simpa using ih

theorem getScope_append_nil (ss : List IMap) (sid : Nat) :
    getScope (ss ++ [[]]) sid = getScope ss sid := by
  by_cases hlt : sid < ss.length
  · exact getScope_append_lt ss [] sid hlt
  · by_cases heq : sid = ss.length
    · subst heq
      rw [getScope_append_self, getScope_oob ss _ (by omega)]
    · rw [getScope_oob ss sid (by omega),
        getScope_oob (ss ++ [[]]) sid (by simp; omega)]

/-- The resolved form of `getScope` after an in-place scope update. -/
theorem getScope_listSet (ss : List IMap) (i sid : Nat) (m : IMap) :
    getScope (listSet ss i m) sid =
      if sid = i ∧ i < ss.length then m else getScope ss sid := by
  by_cases h1 : sid = i
  · subst h1
    by_cases h2 : sid < ss.length
    · simp [h2, getScope_listSet_self ss sid m h2]
    · rw [listSet_of_le ss sid m (by omega)]
      simp [h2]
  · rw [getScope_listSet_ne ss i sid m h1]
    simp [h1]

theorem imr_alloc_mono (m : IMap) (t : GoType)
    (fac : RsvId → Nat → Except Err Val × Nat) (rsv : RsvId) (alloc : Nat)
    (hm : MonoFac fac) :
    alloc ≤ (instanceMapResolve m t fac rsv alloc).2.2.1 := by
  rcases h : alookup m t with _ | v
  · rcases hf : fac rsv alloc with ⟨res, a'⟩
    have hle := hm rsv alloc
    rw [hf] at hle
    rcases res with e | v'' <;> simpa [instanceMapResolve, h, hf] using hle
  · simp [instanceMapResolve, h]

theorem rootResolve_alloc_mono (p : RootProviderM) (w : World) (t : GoType)
    (hmono : AllMono p.registrations) :
    w.alloc ≤ (rootResolve p w t).2.alloc := by
  rcases hr : alookup p.registrations t with _ | reg'
  · simp [rootResolve, hr]
  · have hm := hmono t reg' hr
    by_cases h1 : reg'.lifetime = Transient
    · rcases hf : reg'.factory .root w.alloc with ⟨res, a'⟩
      have hle := hm .root w.alloc
      rw [hf] at hle
      simpa [rootResolve, hr, h1, hf] using hle
    · by_cases h2 : reg'.lifetime = Scoped
      · simp [rootResolve, hr, h1, h2, Transient, Scoped, Singleton]
      · by_cases h3 : reg'.lifetime = Singleton
        · rcases him : instanceMapResolve w.singletons t reg'.factory .root w.alloc
            with ⟨res, m', a', inv⟩
          have hle := imr_alloc_mono w.singletons t reg'.factory .root w.alloc hm
          rw [him] at hle
          simp only at hle
          simpa [rootResolve, hr, h1, h2, h3, him] using hle
        · simp [rootResolve, hr, h1, h2, h3]

/-- Any machine step preserves the cross-scope invariant for a
Scoped-registered type whose factory allocates freshly, provided every
registered factory is allocation-monotone. -/
theorem step_scOK (p : RootProviderM) (tc : GoType) (reg : RegS)
    (hreg : alookup p.registrations tc = some reg)
    (_hscl : reg.lifetime = Scoped) (hfresh : FreshAlloc reg.factory)
    (hmono : AllMono p.registrations) (w : World) (op : Op)
    (hok : scOK w.scopes w.alloc tc) :
    scOK (step p w op).1.scopes (step p w op).1.alloc tc := by
  cases op with
  | newScope =>
    refine scOK_transport w.scopes _ w.alloc _ tc (fun sid => ?_) le_rfl hok
    show alookup (getScope (w.scopes ++ [[]]) sid) tc = _
    rw [getScope_append_nil]
  | resolveRoot t =>
    rcases hrr : rootResolve p w t with ⟨res, w'⟩
    have hs := rootResolve_scopes p w t
    have ha := rootResolve_alloc_mono p w t hmono
    rw [hrr] at hs ha
    simp only at hs ha
    simp only [step, hrr]
    exact scOK_transport w.scopes _ w.alloc _ tc (fun sid => by rw [hs]) ha hok
  | resolveScope sid' t =>
    rcases hr : alookup p.registrations t with _ | reg'
    · have hdel : scopeResolve p w sid' t = rootResolve p w t := by
        rw [scopeResolve, hr]
      rcases hrr : rootResolve p w t with ⟨res, w'⟩
      have hs := rootResolve_scopes p w t
      have ha := rootResolve_alloc_mono p w t hmono
      rw [hrr] at hs ha
      simp only at hs ha
      simp only [step, hdel, hrr]
      exact scOK_transport w.scopes _ w.alloc _ tc (fun sid => by rw [hs]) ha hok
    · by_cases h2 : reg'.lifetime = Scoped
      · by_cases hne : t = tc
        · subst hne
          rw [hreg] at hr
          injection hr with hr
          subst hr
          rcases hc : alookup (getScope w.scopes sid') t with _ | v0
          · rcases hfr : reg.factory (.scope sid') w.alloc with ⟨resf, af⟩
            rcases resf with e | vf
            · have him : instanceMapResolve (getScope w.scopes sid') t reg.factory (.scope sid') w.alloc = (.error e, getScope w.scopes sid', af, true) := by
                simp [instanceMapResolve, hc, hfr]
              have ha : w.alloc ≤ af := by
                have hle := hmono t reg hreg (.scope sid') w.alloc
                rw [hfr] at hle
                exact hle
              have hsc2 : (scopeResolve p w sid' t).2 = { w with scopes := listSet w.scopes sid' (getScope w.scopes sid'), alloc := af, invocations := logIf true w.invocations t (.error e) } := by
                rw [scopeResolve, hreg]
                simp [h2, him]
              rcases hrr : scopeResolve p w sid' t with ⟨res2, w'⟩
              rw [hrr] at hsc2
              simp only at hsc2
              simp only [step, hrr]
              rw [hsc2]
              refine scOK_transport w.scopes _ w.alloc _ t (fun sid => ?_) ha hok
              show alookup (getScope (listSet w.scopes sid' (getScope w.scopes sid')) sid) t = _
              rw [getScope_listSet]
              by_cases hcase : sid = sid' ∧ sid' < w.scopes.length
              · rw [if_pos hcase]
                rw [hcase.1]
              · rw [if_neg hcase]
            · obtain ⟨hvf, haf⟩ := hfresh (.scope sid') w.alloc vf af hfr
              subst hvf
              subst haf
              have him : instanceMapResolve (getScope w.scopes sid') t reg.factory (.scope sid') w.alloc = (.ok (.addrV w.alloc), (t, .addrV w.alloc) :: getScope w.scopes sid', w.alloc + 1, true) := by
                simp [instanceMapResolve, hc, hfr]
              have hsc2 : (scopeResolve p w sid' t).2 = { w with scopes := listSet w.scopes sid' ((t, .addrV w.alloc) :: getScope w.scopes sid'), alloc := w.alloc + 1, invocations := logIf true w.invocations t (.ok (.addrV w.alloc)) } := by
                rw [scopeResolve, hreg]
                simp [h2, him]
              rcases hrr : scopeResolve p w sid' t with ⟨res2, w'⟩
              rw [hrr] at hsc2
              simp only at hsc2
              simp only [step, hrr]
              rw [hsc2]
              show scOK (listSet w.scopes sid' ((t, .addrV w.alloc) :: getScope w.scopes sid')) (w.alloc + 1) t
              constructor
              · intro sid v hv
                rw [getScope_listSet] at hv
                by_cases hcase : sid = sid' ∧ sid' < w.scopes.length
                · rw [if_pos hcase] at hv
                  rw [alookup_cons_self] at hv
                  injection hv with hv
                  exact ⟨w.alloc, hv.symm, by omega⟩
                · rw [if_neg hcase] at hv
                  obtain ⟨a, ha2, hlt2⟩ := hok.1 sid v hv
                  exact ⟨a, ha2, by omega⟩
              · intro sid sid'' a a' hnee hv hv'
                rw [getScope_listSet] at hv hv'
                by_cases hcase : sid = sid' ∧ sid' < w.scopes.length
                · rw [if_pos hcase] at hv
                  rw [alookup_cons_self] at hv
                  injection hv with hv
                  injection hv with hv
                  have hcase' : ¬(sid'' = sid' ∧ sid' < w.scopes.length) := by
                    intro hx
                    exact hnee (hcase.1.trans hx.1.symm)
                  rw [if_neg hcase'] at hv'
                  obtain ⟨a0, ha0, hlt0⟩ := hok.1 sid'' (.addrV a') hv'
                  injection ha0 with ha0
                  omega
                · rw [if_neg hcase] at hv
                  by_cases hcase' : sid'' = sid' ∧ sid' < w.scopes.length
                  · rw [if_pos hcase'] at hv'
                    rw [alookup_cons_self] at hv'
                    injection hv' with hv'
                    injection hv' with hv'
                    obtain ⟨a0, ha0, hlt0⟩ := hok.1 sid (.addrV a) hv
                    injection ha0 with ha0
                    omega
                  · rw [if_neg hcase'] at hv'
                    exact hok.2 sid sid'' a a' hnee hv hv'
          · have him : instanceMapResolve (getScope w.scopes sid') t reg.factory (.scope sid') w.alloc = (.ok v0, getScope w.scopes sid', w.alloc, false) := by
              simp [instanceMapResolve, hc]
            have hsc2 : (scopeResolve p w sid' t).2 = { w with scopes := listSet w.scopes sid' (getScope w.scopes sid'), alloc := w.alloc, invocations := logIf false w.invocations t (.ok v0) } := by
              rw [scopeResolve, hreg]
              simp [h2, him]
            rcases hrr : scopeResolve p w sid' t with ⟨res2, w'⟩
            rw [hrr] at hsc2
            simp only at hsc2
            simp only [step, hrr]
            rw [hsc2]
            refine scOK_transport w.scopes _ w.alloc _ t (fun sid => ?_) le_rfl hok
            show alookup (getScope (listSet w.scopes sid' (getScope w.scopes sid')) sid) t = _
            rw [getScope_listSet]
            by_cases hcase : sid = sid' ∧ sid' < w.scopes.length
            · rw [if_pos hcase]
              rw [hcase.1]
            · rw [if_neg hcase]
        · rcases him : instanceMapResolve (getScope w.scopes sid') t reg'.factory
            (.scope sid') w.alloc with ⟨res, m', a', inv⟩
          have hoth := imr_other (getScope w.scopes sid') t tc reg'.factory
            (.scope sid') w.alloc hne
          rw [him] at hoth
          simp only at hoth
          have ha : w.alloc ≤ a' := by
            have hle := imr_alloc_mono (getScope w.scopes sid') t reg'.factory
              (.scope sid') w.alloc (hmono t reg' hr)
            rw [him] at hle
            exact hle
          have hsc2 : (scopeResolve p w sid' t).2 = { w with scopes := listSet w.scopes sid' m', alloc := a', invocations := logIf inv w.invocations t res } := by
            rw [scopeResolve, hr]
            simp [h2, him]
          rcases hrr : scopeResolve p w sid' t with ⟨res2, w'⟩
          rw [hrr] at hsc2
          simp only at hsc2
          simp only [step, hrr]
          rw [hsc2]
          refine scOK_transport w.scopes _ w.alloc _ tc (fun sid => ?_) ha hok
          show alookup (getScope (listSet w.scopes sid' m') sid) tc = _
          rw [getScope_listSet]
          by_cases hcase : sid = sid' ∧ sid' < w.scopes.length
          · rw [if_pos hcase]
            rw [hoth, hcase.1]
          · rw [if_neg hcase]
      · have hdel : scopeResolve p w sid' t = rootResolve p w t := by
          rw [scopeResolve, hr]
          simp only [h2, if_false]
        rcases hrr : rootResolve p w t with ⟨res, w'⟩
        have hs := rootResolve_scopes p w t
        have ha := rootResolve_alloc_mono p w t hmono
        rw [hrr] at hs ha
        simp only at hs ha
        simp only [step, hdel, hrr]
        exact scOK_transport w.scopes _ w.alloc _ tc (fun sid => by rw [hs]) ha hok

/-- A whole run preserves the cross-scope invariant. -/
theorem run_scOK (p : RootProviderM) (tc : GoType) (reg : RegS)
    (hreg : alookup p.registrations tc = some reg)
    (hscl : reg.lifetime = Scoped) (hfresh : FreshAlloc reg.factory)
    (hmono : AllMono p.registrations) (ops : List Op) :
    ∀ (w : World), scOK w.scopes w.alloc tc →
      scOK (run p w ops).scopes (run p w ops).alloc tc := by
  induction ops with
  | nil =>
    intro w hok
    simpa [run] using hok
  | cons op rest ih =>
    intro w hok
    rw [run]
    exact ih _ (step_scOK p tc reg hreg hscl hfresh hmono w op hok)

/-- C2: for a Scoped registration in a built root provider, over any
valid sequence of operations, two successful Resolve calls for the target
type on the same scope return the identical instance, while successful
Resolve calls on two different scopes of the same root — siblings, or a
parent and the child scope it spawned (a child is a fresh scope of the
same root, `Scope.NewScope` delegating to `RootProvider.NewScope`) —
return distinct instances whenever the registration's factory really
allocates (every success is a fresh heap reference) and all registered
factories are heap-monotone: each scope constructs its own value into its
own independent scoped cache. -/
theorem c2_scoped_instances (regs : List (GoType × RegS)) (a0 : Nat)
    (tc : GoType) (reg : RegS)
    (hreg : alookup regs tc = some reg) (hscl : reg.lifetime = Scoped)
    (ops : List Op) (hvalid : opsValid 0 ops = true)
    (i j sid sid' : Nat) (vi vj : Val)
    (hgi : ops.get? i = some (.resolveScope sid tc))
    (hgj : ops.get? j = some (.resolveScope sid' tc))
    (hoki : (results (buildRootProviderM regs a0).1 (buildRootProviderM regs a0).2 ops).get? i =
      some (some (.ok vi)))
    (hokj : (results (buildRootProviderM regs a0).1 (buildRootProviderM regs a0).2 ops).get? j =
      some (some (.ok vj))) :
    (sid = sid' → vi = vj) ∧
    (FreshAlloc reg.factory → AllMono regs → sid ≠ sid' → vi ≠ vj) := by
  have hreg' : alookup (buildRootProviderM regs a0).1.registrations tc = some reg := hreg
  have hvalid' : opsValid (buildRootProviderM regs a0).2.scopes.length ops = true := hvalid
  have h1 := results_ok_final_scoped (buildRootProviderM regs a0).1 tc reg hreg' hscl ops
    (buildRootProviderM regs a0).2 i sid vi hvalid' hgi hoki
  have h2 := results_ok_final_scoped (buildRootProviderM regs a0).1 tc reg hreg' hscl ops
    (buildRootProviderM regs a0).2 j sid' vj hvalid' hgj hokj
  constructor
  · intro hss
    subst hss
    rw [h1] at h2
    exact Option.some.inj h2
  · intro hfresh hmono hss
    have hinit : scOK (buildRootProviderM regs a0).2.scopes (buildRootProviderM regs a0).2.alloc tc := by
      constructor
      · intro sid0 v hv
        simp [buildRootProviderM, getScope, alookup] at hv
      · intro sid0 sid0' a a' hne0 hv
        simp [buildRootProviderM, getScope, alookup] at hv
    have hrun := run_scOK (buildRootProviderM regs a0).1 tc reg hreg' hscl hfresh hmono ops
      (buildRootProviderM regs a0).2 hinit
    obtain ⟨hp1, hp2⟩ := hrun
    obtain ⟨a, haa, _⟩ := hp1 sid vi h1
    obtain ⟨a', haa', _⟩ := hp1 sid' vj h2
    subst haa
    subst haa'
    have hane := hp2 sid sid' a a' hss h1 h2
    intro heq
    injection heq with heq
    exact hane heq

/-- The factory of the C2 witness: always allocates a fresh instance. -/
def c2wFac : RsvId → Nat → Except Err Val × Nat := fun _ n => (.ok (.addrV n), n + 1)

/-- The registrations of the C2 witness: one Scoped registration. -/
def c2wRegs : List (GoType × RegS) := [(.intT, ⟨Scoped, c2wFac⟩)]

/-- Witness for C2: with two scopes created from the root, two resolves
on scope 0 return the identical instance, and the instances of scope 0
and scope 1 are distinct. -/
theorem c2_witness :
    (Val.addrV 0 : Val) = .addrV 0 ∧ (Val.addrV 0 : Val) ≠ .addrV 1 := by
  have hfresh : FreshAlloc c2wFac := by
    intro r n v n' h
    refine ⟨?_, ?_⟩
    · injection h with h1 h2
      injection h1 with h1
      exact h1.symm
    · injection h with h1 h2
      exact h2.symm
  have hmono : AllMono c2wRegs := by
    intro t rg h
    rw [c2wRegs, alookup] at h
    by_cases he : GoType.intT = t
    · rw [if_pos he] at h
      injection h with h
      subst h
      intro r n
      exact Nat.le_succ n
    · rw [if_neg he] at h
      rw [alookup] at h
      exact absurd h (by simp)
  have hid := (c2_scoped_instances c2wRegs 0 .intT ⟨Scoped, c2wFac⟩ rfl rfl
    [.newScope, .newScope, .resolveScope 0 .intT, .resolveScope 1 .intT, .resolveScope 0 .intT]
    rfl 2 4 0 0 (.addrV 0) (.addrV 0) rfl rfl rfl rfl).1 rfl
  have hdist := (c2_scoped_instances c2wRegs 0 .intT ⟨Scoped, c2wFac⟩ rfl rfl
    [.newScope, .newScope, .resolveScope 0 .intT, .resolveScope 1 .intT, .resolveScope 0 .intT]
    rfl 2 3 0 1 (.addrV 0) (.addrV 1) rfl rfl rfl rfl).2 hfresh hmono (by decide)
  exact ⟨hid, hdist⟩

end Garlic
